import Mathlib

/-!
Verification of the open-gcc context/branch/commit state machine.

The TypeScript source ("src/context.ts", "src/bootstrap.ts",
"src/mcp/operations/{branch,commit,merge,context}.ts", "src/migrate.ts")
manipulates plain-text documents on disk.  We model file contents as
`List Char` and the relevant file tree as explicit structures; every
source function used by the claims is translated here, with JavaScript
regex searches realised as explicit first-occurrence scanners.
-/

set_option maxRecDepth 10000

namespace GCC

/-- File/document content, modelled as a list of characters
(JavaScript strings are treated as sequences of characters). -/
abbrev Str := List Char

/-- Convert a Lean string literal to the model's character-list form. -/
def str (s : String) : Str := s.data

/-- Index of the first occurrence of the literal pattern `pat` in `s`
(JavaScript `String.prototype.indexOf`, result `-1` modelled as `none`). -/
def firstIdx (pat : Str) : Str → Option Nat
  | [] => if pat <+: ([] : Str) then some 0 else none
  | c :: t => if pat <+: (c :: t) then some 0 else (firstIdx pat t).map (· + 1)

/-- `indexOf(pat, k)`: first occurrence at position `≥ k`. -/
def firstIdxFrom (pat : Str) (s : Str) (k : Nat) : Option Nat :=
  (firstIdx pat (s.drop k)).map (· + k)

/-- `s.includes(pat)` as used in several handlers. -/
def containsSub (s pat : Str) : Bool := (firstIdx pat s).isSome

/-- Numeric value of a digit string, `parseInt(ds, 10)` on an all-digit
capture from `/## \[C(\d+)\]/`. -/
def parseDigits (ds : Str) : Nat :=
  ds.foldl (fun a c => a * 10 + (c.toNat - 48)) 0

/-- The decimal character for a digit value `< 10`. -/
def decDigit (d : Nat) : Char :=
  if d = 0 then '0' else if d = 1 then '1' else if d = 2 then '2'
  else if d = 3 then '3' else if d = 4 then '4' else if d = 5 then '5'
  else if d = 6 then '6' else if d = 7 then '7' else if d = 8 then '8' else '9'

/-- Fuel-driven decimal printer loop (fuel keeps the recursion
structural so the kernel can evaluate it; `fuel = n + 1` always
suffices since the argument shrinks by a factor of 10 each step). -/
def natToDecGo : Nat → Nat → Str → Str
  | 0, _, acc => acc
  | fuel + 1, n, acc =>
    if n < 10 then decDigit n :: acc
    else natToDecGo fuel (n / 10) (decDigit (n % 10) :: acc)

/-- Decimal rendering of a natural number, JavaScript `String(n)`. -/
def natToDec (n : Nat) : Str := natToDecGo (n + 1) n []

/-- `String.prototype.padStart(3, '0')`. -/
def pad3 (s : Str) : Str :=
  if s.length < 3 then List.replicate (3 - s.length) '0' ++ s else s

/-- Rendering of a commit identifier number: `C${String(n).padStart(3, '0')}`. -/
def cidStr (n : Nat) : Str := 'C' :: pad3 (natToDec n)

/-- Does the regex `/## \[C(\d+)\]/` match at the start of `s`?  If so,
return the numeric value of the digit capture.  (`\d+` is greedy; after
the maximal digit run the pattern requires a literal `]`, and shorter
runs end in a digit, so the match succeeds exactly when the maximal
nonempty digit run is followed by `]`.) -/
def markerAt (s : Str) : Option Nat :=
  if str "## [C" <+: s then
    let rest := s.drop 5
    let ds := rest.takeWhile Char.isDigit
    if ds ≠ [] ∧ str "]" <+: rest.drop ds.length then some (parseDigits ds)
    else none
  else none

/-- First match of `/## \[C(\d+)\]/` in the document: the captured
number at the earliest position where the full pattern matches
(JavaScript `content.match(...)` semantics). -/
def findMarker : Str → Option Nat
  | [] => none
  | c :: t =>
    match markerAt (c :: t) with
    | some n => some n
    | none => findMarker t

/-- `getNextCommitId` (src/context.ts:36-50): read the branch journal;
if the file is absent or has no commit marker return `C001`, else
1 plus the first marker's number, zero-padded to width 3. -/
def getNextCommitId (journal : Option Str) : Str :=
  match journal with
  | none => str "C001"
  | some content =>
    match findMarker content with
    | none => str "C001"
    | some n => cidStr (n + 1)

/-- The `# Milestone Journal\n\n` anchor used by `prependCommit`. -/
def journalAnchor : Str := str "# Milestone Journal\n\n"

/-- `prependCommit` (src/context.ts:135-169) on the file's content:
insert `entry` right after the first journal anchor; if the anchor is
absent, after the first blank line; else append after a newline.  An
absent file defaults to the journal template. -/
def prependCommitStr (journal : Option Str) (entry : Str) : Str :=
  let existing := journal.getD (str "# Milestone Journal\n\n")
  match firstIdx journalAnchor existing with
  | some i =>
    existing.take (i + journalAnchor.length) ++ entry ++
      existing.drop (i + journalAnchor.length)
  | none =>
    match firstIdx (str "\n\n") existing with
    | some j => existing.take (j + 2) ++ entry ++ existing.drop (j + 2)
    | none => existing ++ str "\n" ++ entry

/-- The field values of one `gcc_commit` call (timestamp is the
handler's formatted `new Date()`; `files` is the already-joined
`files_changed.join(', ')`). -/
structure CommitFields where
  ts : Str
  branch : Str
  title : Str
  what : Str
  why : Str
  files : Str
  next : Str

/-- The commit block template of `handleCommit` (operations/commit.ts). -/
def mkEntry (cid : Str) (f : CommitFields) : Str :=
  str "## [" ++ cid ++ str "] " ++ f.ts ++ str " | branch:" ++ f.branch ++
  str " | " ++ f.title ++
  str "\n**What**: " ++ f.what ++
  str "\n**Why**: " ++ f.why ++
  str "\n**Files**: " ++ f.files ++
  str "\n**Next**: " ++ f.next ++
  str "\n\n---\n\n"

/-- One commit operation on a single branch journal: allocate the id
from the current content, then prepend the rendered block
(the journal-file effect of `handleCommit`). -/
def commitStep (journal : Option Str) (f : CommitFields) : Str × Str :=
  let cid := getNextCommitId journal
  (cid, prependCommitStr journal (mkEntry cid f))

/-- Iterate `commitStep`; returns the final journal and the ids
allocated, in call order. -/
def commitRun (journal : Option Str) : List CommitFields → Option Str × List Str
  | [] => (journal, [])
  | f :: fs =>
    let p := commitStep journal f
    let r := commitRun (some p.2) fs
    (r.1, p.1 :: r.2)

/-- The entry written by the `k+1`-st commit (0-based `k`) of a run that
starts on a marker-free journal. -/
def entryOf (k : Nat) (f : CommitFields) : Str := mkEntry (cidStr (k + 1)) f

/-- Concatenation of the blocks of a run in journal order (newest
first): commit `k + fs.length` down to commit `k + 1`. -/
def revEntries (k : Nat) : List CommitFields → Str
  | [] => []
  | f :: fs => revEntries (k + 1) fs ++ entryOf k f

/-- JavaScript `\s` whitespace (the characters relevant to these
documents; the source never stores exotic Unicode whitespace). -/
def isWS (c : Char) : Bool :=
  c = ' ' ∨ c = '\t' ∨ c = '\n' ∨ c = '\r' ∨ c = '\x0b' ∨ c = '\x0c'

/-- `String.prototype.split('\n')`. -/
def splitOnNl : Str → List Str
  | [] => [[]]
  | c :: t =>
    if c = '\n' then [] :: splitOnNl t
    else
      match splitOnNl t with
      | [] => [[c]]
      | l :: ls => (c :: l) :: ls

/-- `Array.prototype.join('\n')`. -/
def joinNl : List Str → Str
  | [] => []
  | [l] => l
  | l :: ls => l ++ '\n' :: joinNl ls

/-- `Array.prototype.join(sep)`. -/
def joinSep (sep : Str) (ls : List Str) : Str := List.intercalate sep ls

/-- `String.prototype.trimEnd()`. -/
def trimEnd (s : Str) : Str := (s.reverse.dropWhile isWS).reverse

/-- `String.prototype.trim()`. -/
def trimStr (s : Str) : Str := trimEnd (s.dropWhile isWS)

/-- Lowercase ASCII letter. -/
def isLowerAlpha (c : Char) : Bool := 'a' ≤ c ∧ c ≤ 'z'

/-- `[a-z0-9]`. -/
def isLowerAlnum (c : Char) : Bool := isLowerAlpha c ∨ ('0' ≤ c ∧ c ≤ '9')

/-- Tail of the branch-name check: a sequence over `[a-z0-9]` and `-`
in which every `-` is immediately followed by an `[a-z0-9]`. -/
def kebabTail : Str → Bool
  | [] => true
  | '-' :: rest =>
    match rest with
    | [] => false
    | d :: rest2 => isLowerAlnum d && kebabTail rest2
  | c :: rest => isLowerAlnum c && kebabTail rest

/-- The branch-name regex `^[a-z][a-z0-9]*(-[a-z0-9]+)*$` of
`handleBranch`: first character a lowercase letter, then alnum groups
separated by single hyphens, no leading/trailing/double hyphen. -/
def isKebab : Str → Bool
  | [] => false
  | c :: rest => isLowerAlpha c && kebabTail rest

/-- The `## Active Branch\n` label of `_registry.md`. -/
def activePat : Str := str "## Active Branch\n"

/-- First match of `/## Active Branch\n(\S+)/` in the registry:
returns `(before, capture, after)` with
`content = before ++ activePat ++ capture ++ after`.  A position where
the label matches but no non-whitespace character follows is skipped
(the regex engine keeps scanning). -/
def splitActive : Str → Option (Str × Str × Str)
  | [] => none
  | c :: t =>
    if activePat <+: (c :: t) then
      let after := (c :: t).drop activePat.length
      let tok := after.takeWhile (fun d => !isWS d)
      if tok = [] then (splitActive t).map (fun p => (c :: p.1, p.2.1, p.2.2))
      else some ([], tok, after.drop tok.length)
    else (splitActive t).map (fun p => (c :: p.1, p.2.1, p.2.2))

/-- `getActiveBranch` on a present registry file (src/context.ts:59-70). -/
def getActiveFromContent (content : Str) : Str :=
  match splitActive content with
  | none => str "main"
  | some p => p.2.1

/-- `updateRegistryActiveBranch`'s content rewrite: replace the first
`/## Active Branch\n\S+/` match with the label plus the new branch. -/
def replaceActive (content newBranch : Str) : Str :=
  match splitActive content with
  | none => content
  | some p => p.1 ++ activePat ++ newBranch ++ p.2.2

/-- `addBranchToRegistry`'s content rewrite (src/context.ts:93-105). -/
def addRegistryRow (content name date : Str) : Str :=
  trimEnd content ++ str "\n| " ++ name ++ str " | active | " ++ date ++ str " |\n"

/-- First match of `/\| name \| \S+ \|/` in the registry:
`(before, statusToken, after)` with
`content = before ++ "| name | " ++ statusToken ++ " |" ++ after`.
(For kebab-case names the source's regex escaping is the identity.) -/
def splitRow (name : Str) : Str → Option (Str × Str × Str)
  | [] => none
  | c :: t =>
    if (str "| " ++ name ++ str " | ") <+: (c :: t) then
      let after := (c :: t).drop (str "| " ++ name ++ str " | ").length
      let tok := after.takeWhile (fun d => !isWS d)
      if tok ≠ [] ∧ str " |" <+: after.drop tok.length then
        some ([], tok, after.drop (tok.length + 2))
      else (splitRow name t).map (fun p => (c :: p.1, p.2.1, p.2.2))
    else (splitRow name t).map (fun p => (c :: p.1, p.2.1, p.2.2))

/-- `updateRegistryBranchStatus`'s content rewrite
(src/context.ts:110-126): replace the row's status column in place. -/
def setRowStatus (content name status : Str) : Str :=
  match splitRow name content with
  | none => content
  | some p => p.1 ++ str "| " ++ name ++ str " | " ++ status ++ str " |" ++ p.2.2

/-- The still-unfilled conclusion placeholder's fixed prefix, from the
regex `/## Conclusion\n\(Fill in at merge time[^)]*\)/`. -/
def concPat : Str := str "## Conclusion\n(Fill in at merge time"

/-- First match of the conclusion-placeholder regex: `(before, after)`
where the matched text (prefix, then non-`)` characters, then `)`)
sits between them. -/
def splitConc : Str → Option (Str × Str)
  | [] => none
  | c :: t =>
    if concPat <+: (c :: t) then
      let after := (c :: t).drop concPat.length
      let run := after.takeWhile (fun d => d ≠ ')')
      if str ")" <+: after.drop run.length then
        some ([], after.drop (run.length + 1))
      else (splitConc t).map (fun p => (c :: p.1, p.2))
    else (splitConc t).map (fun p => (c :: p.1, p.2))

/-- `updateBranchConclusion`'s content rewrite (src/context.ts:297-312). -/
def fillConclusion (content outcome conclusion : Str) : Str :=
  match splitConc content with
  | none => content
  | some p =>
    p.1 ++ str "## Conclusion\n**Outcome**: " ++ outcome ++ str "\n" ++
      conclusion ++ p.2

/-- The `## Recent Milestones` heading of main.md. -/
def msHeading : Str := str "## Recent Milestones"

/-- The milestone bullet written for an operation:
`- ${date}: ${title} (${branch})`. -/
def renderMilestone (date branch title : Str) : Str :=
  str "- " ++ date ++ str ": " ++ title ++ str " (" ++ branch ++ str ")"

/-- `content.indexOf('\n## ', s + 1)`, with `-1` mapped to the content
length, as both main.md section walkers do. -/
def sectionEndFrom (content : Str) (s : Nat) : Nat :=
  match firstIdxFrom (str "\n## ") content (s + 1) with
  | some n => n
  | none => content.length

/-- The line filter of `updateMainMilestones`:
`l.startsWith('- ') && !l.includes('(none yet)')`. -/
def msLineKeep (l : Str) : Bool :=
  (str "- ").isPrefixOf l && !(containsSub l (str "(none yet)"))

/-- `updateMainMilestones` (src/context.ts:178-209) as a content
transformer; `none` means the function returned without writing
(file absent or heading missing). -/
def updateMainMilestones (mainMd : Option Str) (date branch title : Str)
    (cap : Nat) : Option Str :=
  match mainMd with
  | none => none
  | some content =>
    let newEntry := renderMilestone date branch title
    match firstIdx msHeading content with
    | none => none
    | some s =>
      let e := sectionEndFrom content s
      let lines := (splitOnNl ((content.take e).drop s)).filter msLineKeep
      let updated := (newEntry :: lines).take cap
      some (content.take s ++ msHeading ++ str "\n" ++ joinNl updated ++
        str "\n" ++ content.drop e)

/-- The milestone lines a reader of main.md recovers with the
updater's own section walk (heading to next `\n## `), keeping the
lines the updater keeps (bullets that are not the placeholder). -/
def msLines (content : Str) : List Str :=
  match firstIdx msHeading content with
  | none => []
  | some s =>
    (splitOnNl ((content.take (sectionEndFrom content s)).drop s)).filter msLineKeep

/-- All bullet lines of the Recent Milestones section — the visible
milestone list, including a placeholder if present. -/
def msBullets (content : Str) : List Str :=
  match firstIdx msHeading content with
  | none => []
  | some s =>
    (splitOnNl ((content.take (sectionEndFrom content s)).drop s)).filter
      (fun l => (str "- ").isPrefixOf l)

/-- `addBranchToMainMd` (src/context.ts:218-241) as a content
transformer; mirrors the source's order: the section is located on the
original content, the `- (none)` placeholder is removed afterwards. -/
def addBranchToMainMdStr (content name : Str) : Str :=
  match firstIdx (str "## Open Branches") content with
  | none => content
  | some s =>
    let c1 :=
      match firstIdx (str "- (none)") content with
      | none => content
      | some i =>
        let rest := content.drop (i + 8)
        content.take i ++ (if str "\n" <+: rest then rest.drop 1 else rest)
    let e := sectionEndFrom c1 s
    trimEnd (c1.take e) ++ str "\n- " ++ name ++ str "\n" ++ c1.drop e

/-- First match of the multiline regex `^- name$\n?`: remove the first
whole line equal to `- name` together with its newline.  The Bool
argument tracks whether the scan position is at a line start. -/
def removeLineGo (target : Str) : Str → Bool → Option Str
  | [], _ => none
  | c :: t, atStart =>
    if atStart ∧ target <+: (c :: t) ∧
        ((c :: t).drop target.length = [] ∨ str "\n" <+: (c :: t).drop target.length) then
      some (let rest := (c :: t).drop target.length
            if str "\n" <+: rest then rest.drop 1 else rest)
    else (removeLineGo target t (c = '\n')).map (c :: ·)

/-- `removeBranchFromMainMd` (src/context.ts:246-271) as a content
transformer: drop the branch's bullet line, then restore the
`- (none)` placeholder if the Open Branches section is left empty. -/
def removeBranchFromMainMdStr (content name : Str) : Str :=
  let c1 :=
    match removeLineGo (str "- " ++ name) content true with
    | some r => r
    | none => content
  match firstIdx (str "## Open Branches") c1 with
  | none => c1
  | some s =>
    let e := sectionEndFrom c1 s
    let sectionContent := trimStr ((c1.take e).drop (s + 16))
    if sectionContent = [] ∨ ¬ containsSub sectionContent (str "- ") then
      c1.take s ++ str "## Open Branches\n- (none)\n" ++ c1.drop e
    else c1

/-- `appendLog` (src/context.ts:354-382) on the log file's content:
append the line, then rotate to the last 200 lines when the line count
exceeds `maxLines`. -/
def appendLogStr (log : Option Str) (line : Str) (maxLines : Nat) : Str :=
  let content := log.getD [] ++ line ++ str "\n"
  let lines := splitOnNl content
  if maxLines < lines.length then joinNl (lines.drop (lines.length - 200))
  else content

/-- `readRecentCommits`'s block splitter:
`content.split(/(?=## \[C\d+\])/)` — cut before every position where
the commit-marker regex matches (no cut at position 0). -/
def splitMarkersAux (cur : Str) : Str → List Str
  | [] => [cur.reverse]
  | c :: t =>
    if cur ≠ [] ∧ (markerAt (c :: t)).isSome then
      cur.reverse :: splitMarkersAux [c] t
    else splitMarkersAux (c :: cur) t

/-- The commit blocks of a journal:
split at marker positions, keep chunks starting with `## [C`. -/
def commitBlocks (content : Str) : List Str :=
  (splitMarkersAux [] content).filter (fun e => (str "## [C").isPrefixOf e)

/-- `readRecentCommits` (src/context.ts:334-345). -/
def readRecentCommitsStr (journal : Option Str) (count : Nat) : Str :=
  match journal with
  | none => []
  | some content => joinNl ((commitBlocks content).take count)

/-- `getBranchHeader` (src/context.ts:280-292): everything before the
first `## [C`, trimmed; `none` when the file is absent or the result
empty. -/
def getBranchHeaderStr (journal : Option Str) : Option Str :=
  match journal with
  | none => none
  | some content =>
    let h :=
      match firstIdx (str "## [C") content with
      | none => trimStr content
      | some i => trimStr (content.take i)
    if h = [] then none else some h

/-- The project's document tree as seen by the MCP handlers:
`_registry.md`, `main.md`, per-branch `commits.md` and `log.md`
(`none` = file absent), branch-directory existence, and the loaded
`milestonesKept` configuration value. -/
structure St where
  registry : Option Str
  mainMd : Option Str
  journals : Str → Option Str
  logs : Str → Option Str
  dirs : Str → Bool
  milestonesKept : Nat

/-- Point update of a branch's journal file. -/
def setJournal (st : St) (b : Str) (j : Option Str) : St :=
  { st with journals := fun x => if x = b then j else st.journals x }

/-- Point update of a branch's log file. -/
def setLog (st : St) (b : Str) (l : Option Str) : St :=
  { st with logs := fun x => if x = b then l else st.logs x }

/-- Mark a branch directory as existing (`mkdirSync`). -/
def setDir (st : St) (b : Str) : St :=
  { st with dirs := fun x => if x = b then true else st.dirs x }

/-- `getActiveBranch` (src/context.ts:59-70): missing registry or no
match defaults to `main`. -/
def getActiveBranch (st : St) : Str :=
  match st.registry with
  | none => str "main"
  | some c => getActiveFromContent c

/-- `updateRegistryActiveBranch` (src/context.ts:75-88): returns
without writing when the registry file is missing. -/
def updateRegistryActiveBranchSt (st : St) (newBranch : Str) : St :=
  { st with registry := st.registry.map (fun c => replaceActive c newBranch) }

/-- `addBranchToRegistry` (src/context.ts:93-105). -/
def addBranchToRegistrySt (st : St) (name date : Str) : St :=
  { st with registry := st.registry.map (fun c => addRegistryRow c name date) }

/-- `updateRegistryBranchStatus` (src/context.ts:110-126). -/
def updateRegistryBranchStatusSt (st : St) (name status : Str) : St :=
  { st with registry := st.registry.map (fun c => setRowStatus c name status) }

/-- The branch journal header written by `ensureBranchDir`
(src/bootstrap.ts, v2 layout). -/
def branchHeaderDoc (branch purpose hyp : Str) : Str :=
  str "# Branch: " ++ branch ++ str "\n\n## Purpose\n" ++ purpose ++
  str "\n\n## Hypothesis\n" ++ hyp ++
  str "\n\n## Conclusion\n(Fill in at merge time — success/failure/partial)\n\n---\n\n# Milestone Journal\n\n"

/-- `ensureBranchDir` (src/bootstrap.ts): create the directory, and the
journal/log files only when missing. -/
def ensureBranchDirSt (st : St) (branch purpose hyp : Str) : St :=
  let st1 := setDir st branch
  let st2 :=
    match st1.journals branch with
    | some _ => st1
    | none => setJournal st1 branch (some (branchHeaderDoc branch purpose hyp))
  match st2.logs branch with
  | some _ => st2
  | none => setLog st2 branch (some [])

/-- `appendLog` at the state level: ensures the branch directory and
appends to the log (handlers call it with the default `maxLines` 500). -/
def appendLogSt (st : St) (branch line : Str) : St :=
  let st1 := setDir st branch
  setLog st1 branch (some (appendLogStr (st1.logs branch) line 500))

/-- `updateMainMilestones` at the state level (silent no-op when it
does not write). -/
def updateMainMilestonesSt (st : St) (date branch title : Str) : St :=
  match updateMainMilestones st.mainMd date branch title st.milestonesKept with
  | some c => { st with mainMd := some c }
  | none => st

/-- `prependCommit` at the state level: ensures the branch directory
and writes the new journal content. -/
def prependCommitSt (st : St) (branch entry : Str) : St :=
  let st1 := setDir st branch
  setJournal st1 branch (some (prependCommitStr (st1.journals branch) entry))

/-- `handleBranch` (src/mcp/operations/branch.ts): guards in source
order, then branch creation, registry updates, main.md update, log.
`date` is the handler's formatted `new Date()`. -/
def handleBranch (st : St) (name purpose hyp date : Str) : Str × St :=
  if name = [] ∨ purpose = [] ∨ hyp = [] then
    (str "Error: All fields are required (name, purpose, hypothesis)", st)
  else if ¬ isKebab name then
    (str "Error: Branch name must be kebab-case (lowercase letters, numbers, hyphens). Example: explore-caching", st)
  else
    let active := getActiveBranch st
    if active ≠ str "main" then
      (str "Error: Must be on main to create a branch. Currently on: " ++ active ++
        str ". Merge it first with gcc_merge.", st)
    else if st.dirs name then
      (str "Error: Branch \x27" ++ name ++ str "\x27 already exists.", st)
    else
      let st1 := ensureBranchDirSt st name purpose hyp
      let st2 := updateRegistryActiveBranchSt st1 name
      let st3 := addBranchToRegistrySt st2 name date
      let st4 := { st3 with mainMd := st3.mainMd.map (fun c => addBranchToMainMdStr c name) }
      let st5 := appendLogSt st4 name
        (str "[" ++ date ++ str "] BRANCH created: " ++ name ++ str " — " ++ purpose)
      (str "Created branch \x27" ++ name ++ str "\x27. Now on branch:" ++ name ++
        str ". Use gcc_commit to record milestones, gcc_merge when done.", st5)

/-- `handleCommit` (src/mcp/operations/commit.ts): guard, then journal
prepend on the active branch, milestone update, log.  `ts` is the
handler's formatted timestamp. -/
def handleCommit (st : St) (title what why : Str) (filesChanged : List Str)
    (nextStep ts : Str) : Str × St :=
  if title = [] ∨ what = [] ∨ why = [] ∨ filesChanged = [] ∨ nextStep = [] then
    (str "Error: All fields are required (title, what, why, files_changed, next_step)", st)
  else
    let branch := getActiveBranch st
    let p := commitStep (st.journals branch)
      ⟨ts, branch, title, what, why, joinSep (str ", ") filesChanged, nextStep⟩
    let st1 := setJournal (setDir st branch) branch (some p.2)
    let st2 := updateMainMilestonesSt st1 (ts.take 10) branch title
    let st3 := appendLogSt st2 branch
      (str "[" ++ ts ++ str "] COMMIT " ++ p.1 ++ str ": " ++ title)
    (str "Committed " ++ p.1 ++ str " on branch:" ++ branch ++ str " — " ++ title, st3)

/-- The document writes a merge performs, in source order, for the
write-sequencing claim. -/
inductive MEv where
  | conclusionPatch : MEv
  | mainCommit : MEv
  | milestones : MEv
  | activePtr : MEv
  | statusFlip : MEv
  | openRemoval : MEv
  | logLine : Str → MEv
deriving DecidableEq

/-- `handleMerge` (src/mcp/operations/merge.ts): guards in source
order, then the seven write steps.  Besides the result message and the
new state it returns the list of document writes actually performed,
in execution order (a conditional write that returns early without
writing emits no event). -/
def handleMerge (st : St) (branchName outcome conclusion ts : Str) :
    Str × St × List MEv :=
  if branchName = str "main" then
    (str "Error: Cannot merge main into itself. Only exploration branches can be merged.", st, [])
  else if branchName = [] ∨ outcome = [] ∨ conclusion = [] then
    (str "Error: All fields are required (branch_name, outcome, conclusion)", st, [])
  else if ¬ (outcome = str "success" ∨ outcome = str "failure" ∨ outcome = str "partial") then
    (str "Error: outcome must be one of: success, failure, partial", st, [])
  else
    let active := getActiveBranch st
    if active ≠ branchName then
      (str "Error: Must be on branch \x27" ++ branchName ++
        str "\x27 to merge it. Currently on: " ++ active, st, [])
    else
      let w1 :=
        match st.journals branchName with
        | none => (st, ([] : List MEv))
        | some c =>
          (setJournal st branchName (some (fillConclusion c outcome conclusion)),
            [MEv.conclusionPatch])
      let st1 := w1.1
      let commitId := getNextCommitId (st1.journals (str "main"))
      let entry := mkEntry commitId
        ⟨ts, str "main", str "Merge: " ++ branchName ++ str " (" ++ outcome ++ str ")",
          str "Merged exploration branch \x27" ++ branchName ++ str "\x27. " ++ conclusion,
          str "Consolidate findings from exploration.",
          str ".gcc/context/branches/" ++ branchName ++ str "/",
          str "Continue on main with findings applied."⟩
      let st2 := prependCommitSt st1 (str "main") entry
      let w3 :=
        match updateMainMilestones st2.mainMd (ts.take 10) (str "main")
          (str "Merge: " ++ branchName ++ str " (" ++ outcome ++ str ")")
          st2.milestonesKept with
        | some c => ({ st2 with mainMd := some c }, [MEv.milestones])
        | none => (st2, [])
      let st3 := w3.1
      let w4 :=
        match st3.registry with
        | none => (st3, ([] : List MEv))
        | some _ => (updateRegistryActiveBranchSt st3 (str "main"), [MEv.activePtr])
      let st4 := w4.1
      let w5 :=
        match st4.registry with
        | none => (st4, ([] : List MEv))
        | some _ => (updateRegistryBranchStatusSt st4 branchName (str "merged"),
            [MEv.statusFlip])
      let st5 := w5.1
      let w6 :=
        match st5.mainMd with
        | none => (st5, ([] : List MEv))
        | some c => ({ st5 with mainMd := some (removeBranchFromMainMdStr c branchName) },
            [MEv.openRemoval])
      let st6 := w6.1
      let st7 := appendLogSt st6 branchName
        (str "[" ++ ts ++ str "] MERGE " ++ outcome ++ str ": " ++ conclusion)
      let st8 := appendLogSt st7 (str "main")
        (str "[" ++ ts ++ str "] MERGE " ++ commitId ++ str ": " ++ branchName ++
          str " (" ++ outcome ++ str ")")
      (str "Merged \x27" ++ branchName ++ str "\x27 (" ++ outcome ++
        str ") → main as " ++ commitId ++ str ". Back on branch:main.",
        st8,
        w1.2 ++ [MEv.mainCommit] ++ w3.2 ++ w4.2 ++ w5.2 ++ w6.2 ++
          [MEv.logLine branchName, MEv.logLine (str "main")])

/-- ASCII lowercasing (`String.prototype.toLowerCase` on the ASCII
range these documents use). -/
def lowerChar (c : Char) : Char :=
  if 'A' ≤ c ∧ c ≤ 'Z' then Char.ofNat (c.toNat + 32) else c

/-- `findCommitById` (operations/context.ts): the block containing
`[commitId]`, trimmed; `none` when absent or empty after trimming. -/
def findCommitByIdStr (journal : Option Str) (commitId : Str) : Option Str :=
  match journal with
  | none => none
  | some content =>
    match (commitBlocks content).find?
        (fun e => containsSub e (str "[" ++ commitId ++ str "]")) with
    | none => none
    | some e => let t := trimStr e; if t = [] then none else some t

/-- `searchCommits` (operations/context.ts): case-insensitive substring
filter over commit blocks, first 5 matches joined. -/
def searchCommitsStr (journal : Option Str) (term : Str) : Option Str :=
  match journal with
  | none => none
  | some content =>
    let lowerTerm := term.map lowerChar
    let found := (commitBlocks content).filter
      (fun e => containsSub (e.map lowerChar) lowerTerm)
    if found = [] then none else some (trimStr (joinNl (found.take 5)))

/-- `handleContext` (src/mcp/operations/context.ts): progressive
context disclosure.  `branchArg`, `commitId`, `metaSeg` model the
optional arguments (`none` or empty = absent, per JS truthiness). -/
def handleContext (st : St) (level : Nat) (branchArg commitId metaSeg : Option Str) : Str :=
  if level = 0 ∨ level < 1 ∨ 5 < level then
    str "Error: level must be between 1 and 5"
  else
    let active := getActiveBranch st
    let branch :=
      match branchArg with
      | none => active
      | some b => if b = [] then active else b
    match st.mainMd with
    | none => str "No GCC context found. Run ensureContextStructure or start a session."
    | some mc =>
      let parts1 := [str "## GCC Context (Active: " ++ active ++ str ")\n", mc]
      let parts2 :=
        if 2 ≤ level ∧ level < 4 then
          let rc := readRecentCommitsStr (st.journals branch) 3
          if rc ≠ [] then
            parts1 ++ [str "\n## Recent Commits (" ++ branch ++ str ")\n" ++ rc]
          else parts1
        else parts1
      let parts3 :=
        if 3 ≤ level then
          if branch ≠ str "main" then
            match getBranchHeaderStr (st.journals branch) with
            | some h => parts2 ++ [str "\n## Branch: " ++ branch ++ str "\n" ++ h]
            | none => parts2
          else parts2
        else parts2
      let parts4 :=
        if 4 ≤ level then
          let more := readRecentCommitsStr (st.journals branch) 10
          if more ≠ [] then
            parts3 ++ [str "\n## Extended History (" ++ branch ++ str ", last 10)\n" ++ more]
          else parts3
        else parts3
      let parts5 :=
        if 5 ≤ level then
          let p5a :=
            match commitId with
            | none => parts4
            | some cid =>
              if cid = [] then parts4
              else
                match findCommitByIdStr (st.journals branch) cid with
                | some sp => parts4 ++ [str "\n## Commit " ++ cid ++ str "\n" ++ sp]
                | none => parts4 ++
                    [str "\n## Commit " ++ cid ++ str " not found in branch:" ++ branch]
          match metaSeg with
          | none => p5a
          | some term =>
            if term = [] then p5a
            else
              match searchCommitsStr (st.journals branch) term with
              | some m =>
                if m ≠ [] then
                  p5a ++ [str "\n## Search: \x22" ++ term ++ str "\x22\n" ++ m]
                else p5a ++
                  [str "\n## No matches for \x22" ++ term ++ str "\x22 in branch:" ++ branch]
              | none => p5a ++
                  [str "\n## No matches for \x22" ++ term ++ str "\x22 in branch:" ++ branch]
        else parts4
      joinNl parts5

/-- The main.md template of the v2 bootstrap. -/
def mainMdTemplate : Str :=
  str "# Project Context\n\n## Current Focus\n(Auto-created by GCC. Update with current goals.)\n\n## Recent Milestones\n- (none yet)\n\n## Open Branches\n- (none)\n"

/-- The `_registry.md` template of the v2 bootstrap. -/
def registryTemplate : Str :=
  str "## Active Branch\nmain\n\n## Branch History\n| Branch | Status | Created |\n|--------|--------|---------|\n"

/-- The per-branch journal template. -/
def commitsTemplate : Str := str "# Milestone Journal\n\n"

/-- A freshly initialised empty project (`ensureContextStructure`, v2
bootstrap, default configuration). -/
def freshSt : St :=
  { registry := some registryTemplate
    mainMd := some mainMdTemplate
    journals := fun b => if b = str "main" then some commitsTemplate else none
    logs := fun b => if b = str "main" then some [] else none
    dirs := fun b => decide (b = str "main")
    milestonesKept := 5 }

/-- The context directory as the migrator sees it: root-level
`commits.md`/`log.md`, `branches/main/commits.md` and `log.md`, the
plain files directly under `branches/` (name, content — includes
`_registry.md` and any `*.v1-backup` left by an earlier run), the
subdirectories of `branches/`, the journal/log files written for
converted branches, root-level backup files, and the `.migrated-v2`
marker. -/
@[ext] structure MigSt where
  rootCommits : Option Str
  rootLog : Option Str
  mainCommits : Option Str
  mainLog : Option Str
  files : List (Str × Str)
  dirs : List Str
  branchJournals : List (Str × Str)
  branchLogs : List (Str × Str)
  rootBackups : List (Str × Str)
  marker : Bool

/-- `needsMigration` (src/migrate.ts:18-21). -/
def needsMigration (st : MigSt) : Bool := !st.marker && st.rootCommits.isSome

/-- `extractSection` (src/migrate.ts:129-135): content of the named
section up to the next `\n## ` or end of file, trimmed; `none` when
the heading is absent or the body trims to nothing. -/
def extractSection (content heading : Str) : Option Str :=
  match firstIdx (str "## " ++ heading ++ str "\n") content with
  | none => none
  | some i =>
    let after := content.drop (i + (str "## " ++ heading ++ str "\n").length)
    let body :=
      match firstIdx (str "\n## ") after with
      | some j => after.take j
      | none => after
    let t := trimStr body
    if t = [] then none else some t

/-- `convertBranchHeader` (src/migrate.ts:103-124). -/
def convertBranchHeader (content branchName : Str) : Str :=
  let purpose := (extractSection content (str "Purpose")).getD (str "(migrated from v1)")
  let hyp := (extractSection content (str "Hypothesis")).getD (str "(migrated from v1)")
  let findings := extractSection content (str "Findings")
  let conclusion := extractSection content (str "Conclusion")
  str "# Branch: " ++ branchName ++ str "\n\n" ++
  str "## Purpose\n" ++ purpose ++ str "\n\n" ++
  str "## Hypothesis\n" ++ hyp ++ str "\n\n" ++
  (match findings with
   | some f => str "## Findings\n" ++ f ++ str "\n\n"
   | none => []) ++
  (match conclusion with
   | some c =>
     if ¬ containsSub c (str "Fill in at merge time") then
       str "## Conclusion\n" ++ c ++ str "\n\n"
     else str "## Conclusion\n(Fill in at merge time — success/failure/partial)\n\n"
   | none => str "## Conclusion\n(Fill in at merge time — success/failure/partial)\n\n") ++
  str "---\n\n"

/-- Strip a trailing `.md`. -/
def stripMd (name : Str) : Str := name.take (name.length - 3)

/-- Accumulator of the per-entry conversion loop of `migrateV1ToV2`. -/
structure MigAcc where
  files : List (Str × Str)
  dirs : List Str
  branchJournals : List (Str × Str)
  branchLogs : List (Str × Str)

/-- One iteration of the conversion loop (src/migrate.ts:67-93): skip
`_registry.md`, `main`, non-`.md` entries and names whose directory
already exists; otherwise create the branch directory with the
converted header and rename the flat file to a `.v1-backup`. -/
def migStep (acc : MigAcc) (f : Str × Str) : MigAcc :=
  if f.1 = str "_registry.md" ∨ f.1 = str "main" ∨ ¬ str ".md" <:+ f.1 then
    { acc with files := acc.files ++ [f] }
  else
    let name := stripMd f.1
    if name ∈ acc.dirs then { acc with files := acc.files ++ [f] }
    else
      { files := acc.files ++ [(f.1 ++ str ".v1-backup", f.2)]
        dirs := acc.dirs ++ [name]
        branchJournals := acc.branchJournals ++
          [(name, convertBranchHeader f.2 name ++ str "\n# Milestone Journal\n\n")]
        branchLogs := acc.branchLogs ++ [(name, [])] }

/-- `migrateV1ToV2` (src/migrate.ts:30-98): ensure `branches/main/`,
move/merge the root journal, move the root log (rename-aside only when
a destination exists), create an empty main log if needed, convert the
flat branch files, and write the migration marker. -/
def migrateV1ToV2 (st : MigSt) : MigSt :=
  let dirs0 := if str "main" ∈ st.dirs then st.dirs else st.dirs ++ [str "main"]
  let c : Option Str × List (Str × Str) :=
    match st.rootCommits, st.mainCommits with
    | some rc, none => (some rc, st.rootBackups)
    | some rc, some mc =>
      (some (mc ++ str "\n" ++ rc), st.rootBackups ++ [(str "commits.md.v1-backup", rc)])
    | none, mc => (mc, st.rootBackups)
  let l : Option Str × List (Str × Str) :=
    match st.rootLog, st.mainLog with
    | some rl, none => (some rl, c.2)
    | some rl, some ml => (some ml, c.2 ++ [(str "log.md.v1-backup", rl)])
    | none, ml => (ml, c.2)
  let mainLog1 := match l.1 with | none => some [] | some x => some x
  let acc := st.files.foldl migStep ⟨[], dirs0, st.branchJournals, st.branchLogs⟩
  { rootCommits := none
    rootLog := none
    mainCommits := c.1
    mainLog := mainLog1
    files := acc.files
    dirs := acc.dirs
    branchJournals := acc.branchJournals
    branchLogs := acc.branchLogs
    rootBackups := l.2
    marker := true }

/-- Entries the conversion loop always skips, regardless of the
directory set: the registry file, a file named `main`, and non-`.md`
files. -/
def skipIntrinsic (f : Str × Str) : Prop :=
  f.1 = str "_registry.md" ∨ f.1 = str "main" ∨ ¬ str ".md" <:+ f.1

/-- An entry the conversion loop skips when the directory set is `d`. -/
def skipFor (d : List Str) (f : Str × Str) : Prop :=
  skipIntrinsic f ∨ stripMd f.1 ∈ d

/-- State after step 1 of the verified three-call scenario:
`branch("explore-cache", "test redis", "faster reads")` on a fresh
project. -/
def c3AfterBranch : St :=
  (handleBranch freshSt (str "explore-cache") (str "test redis")
    (str "faster reads") (str "2026-01-02")).2

/-- State after step 2:
`commit("wire redis", "added client", "latency", ["cache.x"], "add tests")`. -/
def c3AfterCommit : St :=
  (handleCommit c3AfterBranch (str "wire redis") (str "added client")
    (str "latency") [str "cache.x"] (str "add tests") (str "2026-01-02 03:04")).2

/-- Result of step 3: `merge("explore-cache", "success", "40% faster")`. -/
def c3MergeResult : Str × St × List MEv :=
  handleMerge c3AfterCommit (str "explore-cache") (str "success")
    (str "40% faster") (str "2026-01-02 03:05")

/-- A journal whose topmost marker number (1) is smaller than a number
appearing below it (2): the allocator's input for the aliasing claim. -/
def c10Journal : Str :=
  str "# Milestone Journal\n\n## [C001] 2026-01-01 10:00 | branch:main | newest\n\n---\n\n## [C002] 2026-01-01 09:00 | branch:main | older\n\n---\n\n"

/-- A migration input in which both the legacy root log and a
destination log exist. -/
def c5St : MigSt :=
  { rootCommits := some (str "# Milestone Journal\n\n")
    rootLog := some (str "legacy line\n")
    mainCommits := none
    mainLog := some (str "existing line\n")
    files := [(str "_registry.md", registryTemplate)]
    dirs := []
    branchJournals := []
    branchLogs := []
    rootBackups := []
    marker := false }

/-- A project state sitting on branch `explore-x`, ready to merge. -/
def c8St : St :=
  { registry := some (str "## Active Branch\nexplore-x\n\n## Branch History\n| Branch | Status | Created |\n|--------|--------|---------|\n| explore-x | active | 2026-01-01 |\n")
    mainMd := some mainMdTemplate
    journals := fun b =>
      if b = str "main" then some commitsTemplate
      else if b = str "explore-x" then
        some (branchHeaderDoc (str "explore-x") (str "p") (str "h"))
      else none
    logs := fun b => if b = str "main" then some [] else none
    dirs := fun b => decide (b = str "main" ∨ b = str "explore-x")
    milestonesKept := 5 }

/-- The merge of `c8St`'s active branch. -/
def c8MergeResult : Str × St × List MEv :=
  handleMerge c8St (str "explore-x") (str "success") (str "done")
    (str "2026-01-02 03:05")

/-- Concrete commit fields used by the allocation-sequence claim. -/
def c1F : CommitFields :=
  ⟨str "2026-01-02 03:04", str "main", str "t", str "w", str "y", str "f", str "n"⟩

/-- A clean v1 legacy layout: root journal and log, one flat branch
file, nothing under `branches/main/` yet. -/
def c4St : MigSt :=
  { rootCommits := some (str "# Milestone Journal\n\n## [C001] 2026-01-01 10:00 | branch:main | t\n\n---\n\n")
    rootLog := some (str "old log line\n")
    mainCommits := none
    mainLog := none
    files := [(str "_registry.md", registryTemplate),
      (str "explore-y.md", str "# Branch: explore-y\n\n## Purpose\np\n\n## Hypothesis\nh\n")]
    dirs := []
    branchJournals := []
    branchLogs := []
    rootBackups := []
    marker := false }

@[simp] theorem setJournal_registry (st : St) (b : Str) (j : Option Str) :
    (setJournal st b j).registry = st.registry := rfl

@[simp] theorem setJournal_mainMd (st : St) (b : Str) (j : Option Str) :
    (setJournal st b j).mainMd = st.mainMd := rfl

@[simp] theorem setJournal_milestonesKept (st : St) (b : Str) (j : Option Str) :
    (setJournal st b j).milestonesKept = st.milestonesKept := rfl

@[simp] theorem setDir_registry (st : St) (b : Str) :
    (setDir st b).registry = st.registry := rfl

@[simp] theorem setDir_mainMd (st : St) (b : Str) :
    (setDir st b).mainMd = st.mainMd := rfl

@[simp] theorem setDir_journals (st : St) (b : Str) :
    (setDir st b).journals = st.journals := rfl

@[simp] theorem setLog_registry (st : St) (b : Str) (l : Option Str) :
    (setLog st b l).registry = st.registry := rfl

@[simp] theorem setLog_mainMd (st : St) (b : Str) (l : Option Str) :
    (setLog st b l).mainMd = st.mainMd := rfl

@[simp] theorem setLog_journals (st : St) (b : Str) (l : Option Str) :
    (setLog st b l).journals = st.journals := rfl

@[simp] theorem appendLogSt_registry (st : St) (b line : Str) :
    (appendLogSt st b line).registry = st.registry := rfl

@[simp] theorem appendLogSt_mainMd (st : St) (b line : Str) :
    (appendLogSt st b line).mainMd = st.mainMd := rfl

@[simp] theorem appendLogSt_journals (st : St) (b line : Str) :
    (appendLogSt st b line).journals = st.journals := rfl

@[simp] theorem prependCommitSt_registry (st : St) (b entry : Str) :
    (prependCommitSt st b entry).registry = st.registry := rfl

@[simp] theorem prependCommitSt_mainMd (st : St) (b entry : Str) :
    (prependCommitSt st b entry).mainMd = st.mainMd := rfl

@[simp] theorem prependCommitSt_milestonesKept (st : St) (b entry : Str) :
    (prependCommitSt st b entry).milestonesKept = st.milestonesKept := rfl

@[simp] theorem updateRegistryActiveBranchSt_registry (st : St) (nb : Str) :
    (updateRegistryActiveBranchSt st nb).registry =
      st.registry.map (fun c => replaceActive c nb) := rfl

@[simp] theorem updateRegistryActiveBranchSt_mainMd (st : St) (nb : Str) :
    (updateRegistryActiveBranchSt st nb).mainMd = st.mainMd := rfl

@[simp] theorem updateRegistryActiveBranchSt_journals (st : St) (nb : Str) :
    (updateRegistryActiveBranchSt st nb).journals = st.journals := rfl

@[simp] theorem updateRegistryBranchStatusSt_registry (st : St) (n s : Str) :
    (updateRegistryBranchStatusSt st n s).registry =
      st.registry.map (fun c => setRowStatus c n s) := rfl

@[simp] theorem updateRegistryBranchStatusSt_mainMd (st : St) (n s : Str) :
    (updateRegistryBranchStatusSt st n s).mainMd = st.mainMd := rfl

@[simp] theorem updateRegistryBranchStatusSt_journals (st : St) (n s : Str) :
    (updateRegistryBranchStatusSt st n s).journals = st.journals := rfl

/-- Claim C3: starting from a freshly initialised empty project on
main, `branch("explore-cache", "test redis", "faster reads")`, then
`commit("wire redis", "added client", "latency", ["cache.x"], "add tests")`,
then `merge("explore-cache", "success", "40% faster")` leaves exactly
one commit in main's journal, titled
`Merge: explore-cache (success)`; the registry's active branch equal to
`main`; the registry history row for `explore-cache` with status
`merged`; and `explore-cache` absent from the Project Summary's
open-branch list (the `- (none)` placeholder is restored). -/
theorem c3_scenario :
    (commitBlocks ((c3MergeResult.2.1.journals (str "main")).getD [])).length = 1
    ∧ containsSub ((c3MergeResult.2.1.journals (str "main")).getD [])
        (str "## [C001] 2026-01-02 03:05 | branch:main | Merge: explore-cache (success)\n") = true
    ∧ getActiveBranch c3MergeResult.2.1 = str "main"
    ∧ containsSub ((c3MergeResult.2.1.registry).getD []) (str "| explore-cache | merged |") = true
    ∧ containsSub ((c3MergeResult.2.1.mainMd).getD []) (str "- explore-cache") = false
    ∧ containsSub ((c3MergeResult.2.1.mainMd).getD []) (str "- (none)\n") = true
    ∧ c3MergeResult.1 =
        str "Merged \x27explore-cache\x27 (success) → main as C001. Back on branch:main." := by
  decide

/-- Claim C10: `getNextCommitId` uses the first (topmost) commit
marker, not the maximum: on a journal whose topmost marker is `C001`
while `C002` appears below it, the allocator returns `C002`, an
identifier already present in the journal.  The final conjunct states
the first-marker semantics in general. -/
theorem c10_first_marker :
    (findMarker c10Journal = some 1
      ∧ getNextCommitId (some c10Journal) = str "C002"
      ∧ containsSub c10Journal (str "## [C002]") = true)
    ∧ (∀ content n, findMarker content = some n →
        getNextCommitId (some content) = cidStr (n + 1)) := by
  refine ⟨by decide, ?_⟩
  intro content n h
  simp [getNextCommitId, h]

/-- Claim C10 witness: the general first-marker clause applied to the
concrete journal. -/
theorem c10_first_marker_witness :
    getNextCommitId (some c10Journal) = cidStr 2 :=
  c10_first_marker.2 c10Journal 1 (by decide)

/-- Claim C5 counterexample: on a legacy layout where a destination
log already exists (content `existing line\n`) and the legacy root log
holds `legacy line\n`, migration leaves the destination's own content
unchanged — the legacy content is *not* appended — and merely renames
the legacy log aside as a backup. -/
theorem c5_log_not_merged :
    (migrateV1ToV2 c5St).mainLog = some (str "existing line\n")
    ∧ (migrateV1ToV2 c5St).mainLog ≠
        some (str "existing line\n" ++ str "legacy line\n")
    ∧ (migrateV1ToV2 c5St).rootLog = none
    ∧ (str "log.md.v1-backup", str "legacy line\n") ∈ (migrateV1ToV2 c5St).rootBackups := by
  decide

/-- Claim C5 amended: the legacy root log is moved into main's log
when no destination exists; when a destination log already exists, the
legacy log is renamed aside as a backup and the destination keeps only
its own content (no append — unlike the journal). -/
theorem c5_log_treatment (st : MigSt) :
    (∀ rl, st.rootLog = some rl → st.mainLog = none →
      (migrateV1ToV2 st).mainLog = some rl ∧ (migrateV1ToV2 st).rootLog = none)
    ∧ (∀ rl ml, st.rootLog = some rl → st.mainLog = some ml →
      (migrateV1ToV2 st).mainLog = some ml ∧ (migrateV1ToV2 st).rootLog = none ∧
        (str "log.md.v1-backup", rl) ∈ (migrateV1ToV2 st).rootBackups) := by
  constructor
  · intro rl h1 h2
    simp [migrateV1ToV2, h1, h2]
  · intro rl ml h1 h2
    simp [migrateV1ToV2, h1, h2]

/-- Claim C5 witness for the amended theorem, at the concrete
migration input. -/
theorem c5_log_treatment_witness :
    (migrateV1ToV2 c5St).mainLog = some (str "existing line\n")
    ∧ (migrateV1ToV2 c5St).rootLog = none
    ∧ (str "log.md.v1-backup", str "legacy line\n") ∈ (migrateV1ToV2 c5St).rootBackups :=
  (c5_log_treatment c5St).2 (str "legacy line\n") (str "existing line\n") rfl rfl

/-- Claim C6: on a project state whose active branch is `main`,
`context` at level 3 with branch `main` produces output byte-identical
to `context` at level 2 with branch `main` (levels 2 and 3 share the
recent-commit slice, and the level-3 branch-header block is skipped
for `main`). -/
theorem c6_level3_main (st : St) (hactive : getActiveBranch st = str "main")
    (commitId metaSeg : Option Str) :
    handleContext st 3 (some (str "main")) commitId metaSeg =
      handleContext st 2 (some (str "main")) commitId metaSeg := by
  have hm : ¬ (str "main" = ([] : Str)) := by decide
  simp [handleContext, hm]

/-- Claim C6 witness: the two calls agree on a fresh project. -/
theorem c6_level3_main_witness :
    handleContext freshSt 3 (some (str "main")) none none =
      handleContext freshSt 2 (some (str "main")) none none :=
  c6_level3_main freshSt rfl none none

/-- Claim C8 counterexample: a successful merge's registry status
flip is *not* the last document write — the open-branch removal and
the two audit log lines follow it; the last write is main's audit log
line. -/
theorem c8_flip_not_last :
    ¬ str "Error" <+: c8MergeResult.1
    ∧ MEv.statusFlip ∈ c8MergeResult.2.2
    ∧ c8MergeResult.2.2.getLast? = some (MEv.logLine (str "main"))
    ∧ c8MergeResult.2.2.getLast? ≠ some MEv.statusFlip := by
  decide

/-- Claim C8 amended: within a successful merge on a state where the
branch journal, registry, and a main.md with a milestones section all
exist, the write order is: conclusion patch, merge commit on main,
milestones update, active-branch pointer, registry status flip,
open-branch-list removal, branch audit log line, main audit log line —
so the status flip happens after the first four writes but before the
removal and the audit lines. -/
theorem c8_write_order (st : St) (bn outcome concl ts jb reg mm : Str) (s : Nat)
    (h1 : bn ≠ str "main") (h2 : bn ≠ []) (h3 : concl ≠ [])
    (h4 : outcome = str "success" ∨ outcome = str "failure" ∨ outcome = str "partial")
    (h5 : getActiveBranch st = bn)
    (h6 : st.journals bn = some jb)
    (h7 : st.registry = some reg)
    (h8 : st.mainMd = some mm)
    (h9 : firstIdx msHeading mm = some s) :
    (handleMerge st bn outcome concl ts).2.2 =
      [MEv.conclusionPatch, MEv.mainCommit, MEv.milestones, MEv.activePtr,
        MEv.statusFlip, MEv.openRemoval, MEv.logLine bn, MEv.logLine (str "main")] := by
  have houtne : outcome ≠ [] := by
    rcases h4 with h | h | h <;> simp [h, str]
  simp only [handleMerge, if_neg h1]
  rw [if_neg (by simp [h2, h3, houtne])]
  rw [if_neg (by rcases h4 with h | h | h <;> simp [h])]
  rw [if_neg (by simp [h5])]
  simp only [h6]
  simp only [setJournal_registry, setJournal_mainMd, setJournal_milestonesKept,
    prependCommitSt_registry, prependCommitSt_mainMd, prependCommitSt_milestonesKept,
    h7, h8]
  simp only [updateMainMilestones, h9]
  simp

/-- Claim C8 witness for the amended write-order theorem, at the
concrete merge-ready state. -/
theorem c8_write_order_witness :
    c8MergeResult.2.2 =
      [MEv.conclusionPatch, MEv.mainCommit, MEv.milestones, MEv.activePtr,
        MEv.statusFlip, MEv.openRemoval, MEv.logLine (str "explore-x"),
        MEv.logLine (str "main")] :=
  c8_write_order c8St (str "explore-x") (str "success") (str "done")
    (str "2026-01-02 03:05")
    (branchHeaderDoc (str "explore-x") (str "p") (str "h"))
    (str "## Active Branch\nexplore-x\n\n## Branch History\n| Branch | Status | Created |\n|--------|--------|---------|\n| explore-x | active | 2026-01-01 |\n")
    mainMdTemplate 87
    (by decide) (by decide) (by decide) (Or.inl rfl) (by decide) rfl rfl rfl
    (by decide)

/-- Claim C2: every guard violation listed for `branch`, `commit`, and
`merge` yields a result message starting with `Error` and leaves the
state unchanged (and for merge, performs no document write at all):
all guard checks run before the first write. -/
theorem c2_guards_no_mutation :
    (∀ (st : St) (n p h d : Str),
      (n = [] ∨ p = [] ∨ h = [] ∨ isKebab n = false ∨
        getActiveBranch st ≠ str "main" ∨ st.dirs n = true) →
      str "Error" <+: (handleBranch st n p h d).1 ∧ (handleBranch st n p h d).2 = st)
    ∧ (∀ (st : St) (t w y : Str) (fs : List Str) (ns ts : Str),
      (t = [] ∨ w = [] ∨ y = [] ∨ fs = [] ∨ ns = []) →
      str "Error" <+: (handleCommit st t w y fs ns ts).1 ∧
        (handleCommit st t w y fs ns ts).2 = st)
    ∧ (∀ (st : St) (bn o c ts : Str),
      (bn = [] ∨ o = [] ∨ c = [] ∨
        ¬ (o = str "success" ∨ o = str "failure" ∨ o = str "partial") ∨
        getActiveBranch st ≠ bn) →
      str "Error" <+: (handleMerge st bn o c ts).1 ∧
        (handleMerge st bn o c ts).2.1 = st ∧ (handleMerge st bn o c ts).2.2 = []) := by
  refine ⟨?_, ?_, ?_⟩
  · intro st n p h d hg
    unfold handleBranch
    split
    · exact ⟨(by decide : str "Error" <+: str "Error: All fields are required (name, purpose, hypothesis)"), rfl⟩
    · split
      · exact ⟨(by decide : str "Error" <+: str "Error: Branch name must be kebab-case (lowercase letters, numbers, hyphens). Example: explore-caching"), rfl⟩
      · dsimp only
        split
        · exact ⟨(by decide : str "Error" <+: str "Error: Must be on main to create a branch. Currently on: ").trans
            (List.prefix_append _ _), rfl⟩
        · split
          · exact ⟨(by decide : str "Error" <+: str "Error: Branch \x27").trans
              (List.prefix_append _ _), rfl⟩
          · rename_i h1 h2 h3 h4
            exfalso
            rcases hg with hg | hg | hg | hg | hg | hg
            · exact h1 (Or.inl hg)
            · exact h1 (Or.inr (Or.inl hg))
            · exact h1 (Or.inr (Or.inr hg))
            · exact h2 (by simp [hg])
            · exact h3 hg
            · exact h4 hg
  · intro st t w y fs ns ts hg
    unfold handleCommit
    split
    · exact ⟨(by decide : str "Error" <+: str "Error: All fields are required (title, what, why, files_changed, next_step)"), rfl⟩
    · rename_i h1
      exact absurd hg h1
  · intro st bn o c ts hg
    unfold handleMerge
    split
    · exact ⟨(by decide : str "Error" <+: str "Error: Cannot merge main into itself. Only exploration branches can be merged."), rfl, rfl⟩
    · split
      · exact ⟨(by decide : str "Error" <+: str "Error: All fields are required (branch_name, outcome, conclusion)"), rfl, rfl⟩
      · split
        · exact ⟨(by decide : str "Error" <+: str "Error: outcome must be one of: success, failure, partial"), rfl, rfl⟩
        · dsimp only
          split
          · exact ⟨(by decide : str "Error" <+: str "Error: Must be on branch \x27").trans
              (List.prefix_append _ _), rfl, rfl⟩
          · rename_i h1 h2 h3 h4
            exfalso
            rcases hg with hg | hg | hg | hg | hg
            · exact h2 (Or.inl hg)
            · exact h2 (Or.inr (Or.inl hg))
            · exact h2 (Or.inr (Or.inr hg))
            · exact h3 hg
            · exact h4 hg

/-- Claim C2 witness: a `branch` call with an empty name on a fresh
project errors out and changes nothing. -/
theorem c2_guards_no_mutation_witness :
    str "Error" <+: (handleBranch freshSt [] (str "p") (str "h") (str "d")).1 ∧
      (handleBranch freshSt [] (str "p") (str "h") (str "d")).2 = freshSt :=
  c2_guards_no_mutation.1 freshSt [] (str "p") (str "h") (str "d") (Or.inl rfl)

/-- The empty list is not kebab-case. -/
theorem isKebab_ne_nil {n : Str} (hk : isKebab n = true) : n ≠ [] := by
  rintro rfl
  simp [isKebab] at hk

theorem firstIdx_le {pat s : Str} {i : Nat} (h : firstIdx pat s = some i) :
    i ≤ s.length := by
  induction s generalizing i with
  | nil =>
    rw [firstIdx] at h
    split at h
    · cases h; exact Nat.le_refl 0
    · cases h
  | cons c t ih =>
    rw [firstIdx] at h
    split at h
    · cases h; exact Nat.zero_le _
    · obtain ⟨j, hj, rfl⟩ := Option.map_eq_some'.1 h
      simpa using Nat.succ_le_succ (ih hj)

theorem firstIdx_prefix {pat s : Str} {i : Nat} (h : firstIdx pat s = some i) :
    pat <+: s.drop i := by
  induction s generalizing i with
  | nil =>
    rw [firstIdx] at h
    split at h
    · cases h; simpa using ‹pat <+: ([] : Str)›
    · cases h
  | cons c t ih =>
    rw [firstIdx] at h
    split at h
    · cases h; simpa using ‹pat <+: c :: t›
    · obtain ⟨j, hj, rfl⟩ := Option.map_eq_some'.1 h
      simpa using ih hj

theorem firstIdx_min {pat s : Str} {i : Nat} (h : firstIdx pat s = some i) :
    ∀ j < i, ¬ pat <+: s.drop j := by
  induction s generalizing i with
  | nil =>
    rw [firstIdx] at h
    split at h
    · cases h; intro j hj; omega
    · cases h
  | cons c t ih =>
    rw [firstIdx] at h
    split at h
    · cases h; intro j hj; omega
    · obtain ⟨k, hk, rfl⟩ := Option.map_eq_some'.1 h
      rename_i hnp
      intro j hj
      match j with
      | 0 => simpa using hnp
      | j + 1 =>
        have := ih hk j (by omega)
        simpa using this

theorem firstIdx_eq_some {pat s : Str} {i : Nat} (h1 : pat <+: s.drop i)
    (h2 : ∀ j < i, ¬ pat <+: s.drop j) : firstIdx pat s = some i := by
  induction s generalizing i with
  | nil =>
    match i with
    | 0 => rw [firstIdx, if_pos (by simpa using h1)]
    | i + 1 =>
      exfalso
      exact h2 0 (by omega) (by simpa using h1)
  | cons c t ih =>
    match i with
    | 0 => rw [firstIdx, if_pos (by simpa using h1)]
    | i + 1 =>
      rw [firstIdx, if_neg (by simpa using h2 0 (by omega))]
      rw [ih (by simpa using h1) (fun j hj => by simpa using h2 (j + 1) (by omega))]
      rfl

theorem firstIdx_bound {pat s : Str} {i : Nat} (h : firstIdx pat s = some i) :
    i + pat.length ≤ s.length := by
  have h1 := ( firstIdx_prefix h).length_le
  have h2 := firstIdx_le h
  rw [List.length_drop] at h1
  omega

theorem prefix_drop_append_left {pat A : Str} (X : Str) {p : Nat}
    (h : pat <+: A.drop p) : pat <+: (A ++ X).drop p := by
  by_cases hp : p ≤ A.length
  · rw [List.drop_append_of_le_length hp]
    exact h.trans (List.prefix_append _ _)
  · have : A.drop p = [] := List.drop_eq_nil_of_le (by omega)
    rw [this, List.prefix_nil] at h
    rw [h]
    exact List.nil_prefix

theorem prefix_drop_append_right {pat A X : Str} {p : Nat}
    (h : pat <+: (A ++ X).drop p) (hlen : p + pat.length ≤ A.length) :
    pat <+: A.drop p := by
  have hp : p ≤ A.length := by omega
  rw [List.drop_append_of_le_length hp] at h
  rw [List.prefix_iff_eq_take] at h
  rw [List.take_append_of_le_length (by rw [List.length_drop]; omega)] at h
  rw [h]
  exact List.take_prefix _ _

theorem firstIdx_append {pat A : Str} (X : Str) {i : Nat}
    (h : firstIdx pat A = some i) : firstIdx pat (A ++ X) = some i := by
  refine firstIdx_eq_some (prefix_drop_append_left X ( firstIdx_prefix h)) ?_
  intro j hj hpre
  exact firstIdx_min h j hj
    (prefix_drop_append_right hpre (by have := firstIdx_bound h; omega))

theorem firstIdx_take {pat s : Str} {i : Nat} (h : firstIdx pat s = some i) :
    firstIdx pat (s.take (i + pat.length)) = some i := by
  refine firstIdx_eq_some ?_ ?_
  · have h1 := firstIdx_prefix h
    rw [List.drop_take]
    have h2 : i + pat.length - i = pat.length := by omega
    rw [h2]
    rw [List.prefix_iff_eq_take] at h1
    rw [← h1]
  · intro j hj hpre
    refine firstIdx_min h j hj (hpre.trans ?_)
    rw [List.drop_take]
    exact List.take_prefix _ _

theorem firstIdx_decomp {pat s : Str} {i : Nat} (h : firstIdx pat s = some i) :
    s = s.take i ++ pat ++ s.drop (i + pat.length) ∧ (s.take i).length = i := by
  constructor
  · obtain ⟨u, hu⟩ := firstIdx_prefix h
    conv_lhs => rw [← List.take_append_drop i s]
    rw [← hu, List.append_assoc]
    congr 1
    have : u = (s.drop i).drop pat.length := by rw [← hu, List.drop_left]
    rw [this, List.drop_drop, Nat.add_comm]
  · rw [List.length_take]
    have := firstIdx_le h
    omega

theorem firstIdx_stable {pat P X Y : Str}
    (hP : firstIdx pat (P ++ pat ++ X) = some P.length) :
    firstIdx pat (P ++ pat ++ Y) = some P.length := by
  refine firstIdx_eq_some ?_ ?_
  · rw [List.append_assoc, List.drop_left]
    exact List.prefix_append _ _
  · intro j hj hpre
    refine firstIdx_min hP j hj ?_
    rw [List.append_assoc] at hpre ⊢
    have hj2 : j + pat.length ≤ P.length + pat.length := by omega
    have h1 : pat <+: (P ++ pat).drop j := by
      rw [← List.append_assoc] at hpre
      exact prefix_drop_append_right hpre (by simpa using hj2)
    rw [← List.append_assoc]
    exact prefix_drop_append_left X h1

theorem takeWhile_eq_self_of_all {p : Char → Bool} :
    ∀ {l : Str}, (∀ c ∈ l, p c = true) → l.takeWhile p = l := by
  intro l
  induction l with
  | nil => intro _; rfl
  | cons c t ih =>
    intro h
    rw [List.takeWhile_cons, h c (List.mem_cons_self c t), if_pos rfl,
      ih (fun d hd => h d (List.mem_cons_of_mem c hd))]

theorem takeWhile_all_append {p : Char → Bool} {l : Str} (h : l.takeWhile p = l)
    (X : Str) : (l ++ X).takeWhile p = l ++ X.takeWhile p := by
  induction l with
  | nil => simp
  | cons c t ih =>
    rw [List.takeWhile_cons] at h
    by_cases hc : p c = true
    · rw [hc, if_pos rfl] at h
      have ht : t.takeWhile p = t := by injection h
      rw [List.cons_append, List.takeWhile_cons, hc, if_pos rfl, ih ht, List.cons_append]
    · rw [if_neg hc] at h
      exact absurd h (by simp)

theorem dropWhile_ne_nil_of_takeWhile_ne {p : Char → Bool} {l : Str}
    (h : l.takeWhile p ≠ l) : l.dropWhile p ≠ [] := by
  intro hd
  apply h
  have := List.takeWhile_append_dropWhile (p := p) (l := l)
  rw [hd, List.append_nil] at this
  exact this

theorem takeWhile_stop_append {p : Char → Bool} :
    ∀ {l : Str} (X : Str), l.dropWhile p ≠ [] →
      (l ++ X).takeWhile p = l.takeWhile p := by
  intro l
  induction l with
  | nil => intro X h; exact absurd rfl h
  | cons c t ih =>
    intro X h
    rw [List.dropWhile_cons] at h
    by_cases hc : p c
    · rw [if_pos hc] at h
      rw [List.cons_append, List.takeWhile_cons, hc, if_pos rfl,
        List.takeWhile_cons, hc, if_pos rfl, ih X h]
    · rw [List.cons_append, List.takeWhile_cons, List.takeWhile_cons,
        if_neg (by simpa using hc), if_neg (by simpa using hc)]

theorem markerAt_entry {D : Str} (hD : D ≠ []) (hdig : ∀ c ∈ D, c.isDigit = true)
    (X : Str) : markerAt (str "## [C" ++ (D ++ ']' :: X)) = some (parseDigits D) := by
  have hdrop : (str "## [C" ++ (D ++ ']' :: X)).drop 5 = D ++ ']' :: X := by
    have h5 : (5 : Nat) = (str "## [C").length := by decide
    rw [h5, List.drop_left]
  have htw : (D ++ ']' :: X).takeWhile Char.isDigit = D := by
    rw [takeWhile_all_append (takeWhile_eq_self_of_all hdig)]
    rw [List.takeWhile_cons, (by decide : Char.isDigit ']' = false)]
    simp
  rw [markerAt, if_pos (List.prefix_append _ _)]
  simp only [hdrop, htw]
  rw [if_pos ⟨hD, by rw [List.drop_left]; exact ⟨X, rfl⟩⟩]

theorem markerAt_some_append {A X : Str} {n : Nat} (h : markerAt A = some n) :
    markerAt (A ++ X) = some n := by
  simp only [markerAt] at h ⊢
  by_cases h5 : str "## [C" <+: A
  · rw [if_pos h5] at h
    rw [if_pos (h5.trans (List.prefix_append _ _))]
    have hlen : 5 ≤ A.length := by
      have := h5.length_le
      simpa using this
    have hdrop : (A ++ X).drop 5 = A.drop 5 ++ X := List.drop_append_of_le_length hlen
    rw [hdrop]
    set A5 := A.drop 5 with hA5
    set ds := A5.takeWhile Char.isDigit with hds_def
    set dw := A5.dropWhile Char.isDigit with hdw_def
    have hsplit : A5 = ds ++ dw := (List.takeWhile_append_dropWhile Char.isDigit A5).symm
    split at h
    · rename_i hcond
      obtain ⟨hds, hbr⟩ := hcond
      cases h
      have hdw1 : A5.drop ds.length = dw := by
        conv_lhs => rw [hsplit]
        rw [List.drop_left]
      rw [hdw1] at hbr
      have hdwne : dw ≠ [] := by
        intro hnil
        rw [hnil, List.prefix_nil] at hbr
        exact absurd hbr (by decide)
      rw [takeWhile_stop_append X hdwne]
      have hdw2 : (A5 ++ X).drop ds.length = dw ++ X := by
        conv_lhs => rw [hsplit, List.append_assoc]
        rw [List.drop_left]
      rw [if_pos ⟨hds, hdw2 ▸ hbr.trans (List.prefix_append _ _)⟩]
    · cases h
  · rw [if_neg h5] at h
    cases h

theorem markerAt_append_hashes_none {A Z : Str} (hA : markerAt A = none)
    (hne : A ≠ []) : markerAt (A ++ '#' :: '#' :: Z) = none := by
  have hpat : str "## [C" = '#' :: '#' :: ' ' :: '[' :: 'C' :: [] := rfl
  by_cases h5 : str "## [C" <+: A ++ '#' :: '#' :: Z
  case neg => simp only [markerAt]; rw [if_neg h5]
  case pos =>
  match A, hne with
  | [a], _ =>
    exfalso
    obtain ⟨u, hu⟩ := h5
    rw [hpat] at hu
    simp at hu
  | [a, b], _ =>
    exfalso
    obtain ⟨u, hu⟩ := h5
    rw [hpat] at hu
    simp at hu
  | [a, b, c], _ =>
    exfalso
    obtain ⟨u, hu⟩ := h5
    rw [hpat] at hu
    simp at hu
  | [a, b, c, d], _ =>
    exfalso
    obtain ⟨u, hu⟩ := h5
    rw [hpat] at hu
    simp at hu
  | a :: b :: c :: d :: e :: A5, _ =>
    obtain ⟨u, hu⟩ := h5
    rw [hpat] at hu
    simp only [List.cons_append, List.nil_append, List.cons.injEq] at hu
    obtain ⟨rfl, rfl, rfl, rfl, rfl, -⟩ := hu
    have hpre : str "## [C" <+: '#' :: '#' :: ' ' :: '[' :: 'C' :: A5 := ⟨A5, rfl⟩
    simp only [markerAt] at hA ⊢
    rw [if_pos hpre] at hA
    rw [if_pos (show str "## [C" <+:
      '#' :: '#' :: ' ' :: '[' :: 'C' :: A5 ++ '#' :: '#' :: Z from
        ⟨A5 ++ '#' :: '#' :: Z, rfl⟩)]
    have hd1 : List.drop 5 ('#' :: '#' :: ' ' :: '[' :: 'C' :: A5) = A5 := rfl
    have hd2 : List.drop 5 ('#' :: '#' :: ' ' :: '[' :: 'C' :: A5 ++ '#' :: '#' :: Z) =
        A5 ++ '#' :: '#' :: Z := rfl
    rw [hd1] at hA
    rw [hd2]
    set ds := A5.takeWhile Char.isDigit with hds_def
    set dw := A5.dropWhile Char.isDigit with hdw_def
    have hsplit : A5 = ds ++ dw := (List.takeWhile_append_dropWhile Char.isDigit A5).symm
    by_cases hall : ds = A5
    · have htw : (A5 ++ '#' :: '#' :: Z).takeWhile Char.isDigit = A5 := by
        rw [takeWhile_all_append (hds_def ▸ hall), List.takeWhile_cons,
          (by decide : Char.isDigit '#' = false)]
        simp
      rw [htw]
      rw [if_neg ?_]
      rintro ⟨-, hbr⟩
      rw [List.drop_left] at hbr
      obtain ⟨v, hv⟩ := hbr
      have hq : str "]" = [']'] := rfl
      rw [hq] at hv
      simp at hv
    · have hdwne : dw ≠ [] := dropWhile_ne_nil_of_takeWhile_ne (hds_def ▸ hall)
      rw [takeWhile_stop_append _ hdwne]
      split at hA
      · cases hA
      · rename_i hcond
        rw [if_neg ?_]
        rintro ⟨hds, hbr⟩
        apply hcond
        refine ⟨hds, ?_⟩
        have hdw1 : A5.drop ds.length = dw := by
          conv_lhs => rw [hsplit]
          rw [List.drop_left]
        have hdw2 : (A5 ++ '#' :: '#' :: Z).drop ds.length = dw ++ '#' :: '#' :: Z := by
          conv_lhs => rw [hsplit, List.append_assoc]
          rw [List.drop_left]
        rw [hdw2] at hbr
        rw [hdw1]
        obtain ⟨w, dw2, hw⟩ : ∃ w dw2, dw = w :: dw2 := by
          cases hx : dw
          · exact absurd hx hdwne
          · exact ⟨_, _, rfl⟩
        rw [hw] at hbr ⊢
        rw [List.cons_append] at hbr
        obtain ⟨v, hv⟩ := hbr
        have hq : str "]" = [']'] := rfl
        rw [hq] at hv
        simp only [List.cons_append, List.cons.injEq] at hv
        rw [← hv.1]
        exact ⟨dw2, rfl⟩
theorem findMarker_cons_eq (c : Char) (t : Str) :
    findMarker (c :: t) =
      match markerAt (c :: t) with
      | some n => some n
      | none => findMarker t := rfl

theorem findMarker_cons_none {c : Char} {t : Str}
    (h : findMarker (c :: t) = none) :
    markerAt (c :: t) = none ∧ findMarker t = none := by
  rw [findMarker_cons_eq] at h
  cases hma : markerAt (c :: t) with
  | some n => rw [hma] at h; cases h
  | none => rw [hma] at h; exact ⟨rfl, h⟩

theorem findMarker_of_markerAt_some {c : Char} {t : Str} {n : Nat}
    (h : markerAt (c :: t) = some n) : findMarker (c :: t) = some n := by
  rw [findMarker_cons_eq, h]

/-- A prefix of a marker-free document is marker-free. -/
theorem findMarker_append_none {A B : Str} (h : findMarker (A ++ B) = none) :
    findMarker A = none := by
  induction A with
  | nil => rfl
  | cons c t ih =>
    rw [List.cons_append] at h
    obtain ⟨hma, hfm⟩ := findMarker_cons_none h
    rw [findMarker_cons_eq]
    cases hma2 : markerAt (c :: t) with
    | some n =>
      exfalso
      have := markerAt_some_append (X := B) hma2
      rw [List.cons_append] at this
      rw [this] at hma
      cases hma
    | none => exact ih hfm

/-- The first marker of `A ++ "## [C" ++ D ++ "]" ++ X` with `A`
marker-free is the appended entry's marker. -/
theorem findMarker_entry {A : Str} (hA : findMarker A = none) {D : Str}
    (hD : D ≠ []) (hdig : ∀ c ∈ D, c.isDigit = true) (X : Str) :
    findMarker (A ++ (str "## [C" ++ (D ++ ']' :: X))) = some (parseDigits D) := by
  induction A with
  | nil =>
    rw [List.nil_append]
    have hm := markerAt_entry hD hdig X
    have hcons : str "## [C" ++ (D ++ ']' :: X) =
        '#' :: ('#' :: ' ' :: '[' :: 'C' :: (D ++ ']' :: X)) := rfl
    rw [hcons] at hm ⊢
    exact findMarker_of_markerAt_some hm
  | cons c t ih =>
    obtain ⟨hma, hfm⟩ := findMarker_cons_none hA
    have hsh : str "## [C" ++ (D ++ ']' :: X) =
        '#' :: '#' :: (' ' :: '[' :: 'C' :: (D ++ ']' :: X)) := rfl
    have hstep : markerAt ((c :: t) ++ (str "## [C" ++ (D ++ ']' :: X))) = none := by
      rw [hsh]
      exact markerAt_append_hashes_none hma (by simp)
    rw [List.cons_append, findMarker_cons_eq]
    have hres := ih hfm
    cases hmm : markerAt (c :: (t ++ (str "## [C" ++ (D ++ ']' :: X)))) with
    | some n =>
      exfalso
      rw [← List.cons_append] at hmm
      rw [hstep] at hmm
      cases hmm
    | none => exact hres

theorem decDigit_isDigit (d : Nat) : (decDigit d).isDigit = true := by
  unfold decDigit
  repeat' split
  all_goals decide

theorem parseDigit_decDigit {d : Nat} (hd : d < 10) :
    (decDigit d).toNat - 48 = d := by
  interval_cases d <;> decide

theorem natToDecGo_eq (n : Nat) (hn : 1 ≤ n) : ∀ (fuel : Nat) (acc : Str),
    n < 10 ^ fuel →
    natToDecGo fuel n acc = ((Nat.digits 10 n).reverse.map decDigit) ++ acc := by
  induction n using Nat.strong_induction_on with
  | _ n ih =>
    intro fuel acc hlt
    match fuel with
    | 0 => simp at hlt; omega
    | fuel + 1 =>
      rw [natToDecGo]
      by_cases h10 : n < 10
      · rw [if_pos h10]
        rw [Nat.digits_def' (by norm_num : 1 < 10) (by omega : 0 < n)]
        rw [Nat.mod_eq_of_lt h10, Nat.div_eq_of_lt h10]
        simp
      · rw [if_neg h10]
        have hd1 : 1 ≤ n / 10 := by
          have := Nat.div_pos (Nat.not_lt.1 h10) (by norm_num)
          omega
        have hdlt : n / 10 < n := Nat.div_lt_self (by omega) (by norm_num)
        have hdf : n / 10 < 10 ^ fuel := by
          rw [Nat.div_lt_iff_lt_mul (by norm_num : (0:Nat) < 10)]
          calc n < 10 ^ (fuel + 1) := hlt
          _ = 10 ^ fuel * 10 := by ring
        rw [ih (n / 10) hdlt hd1 fuel _ hdf]
        rw [Nat.digits_def' (by norm_num : 1 < 10) (by omega : 0 < n)]
        simp [List.append_assoc]

theorem natToDec_eq (n : Nat) (hn : 1 ≤ n) :
    natToDec n = (Nat.digits 10 n).reverse.map decDigit := by
  rw [natToDec, natToDecGo_eq n hn (n + 1) []
    (lt_of_lt_of_le (Nat.lt_pow_self (by norm_num) n)
      (Nat.pow_le_pow_right (by norm_num) (by omega))), List.append_nil]

theorem natToDec_digits (n : Nat) : ∀ c ∈ natToDec n, c.isDigit = true := by
  by_cases hn : 1 ≤ n
  · rw [natToDec_eq n hn]
    intro c hc
    obtain ⟨d, _, rfl⟩ := List.mem_map.1 hc
    exact decDigit_isDigit d
  · have : n = 0 := by omega
    subst this
    intro c hc
    have : natToDec 0 = ['0'] := rfl
    rw [this] at hc
    rw [List.mem_singleton.1 hc]
    decide

theorem natToDec_ne_nil (n : Nat) : natToDec n ≠ [] := by
  by_cases hn : 1 ≤ n
  · rw [natToDec_eq n hn]
    simp [Nat.digits_ne_nil_iff_ne_zero]
    omega
  · have : n = 0 := by omega
    subst this
    exact fun h => absurd h (by decide)

theorem parseDigits_rev_map (ds : List Nat) (h : ∀ d ∈ ds, d < 10) :
    parseDigits (ds.reverse.map decDigit) = Nat.ofDigits 10 ds := by
  induction ds with
  | nil => rfl
  | cons d t ih =>
    rw [List.reverse_cons, List.map_append]
    rw [parseDigits, List.foldl_append]
    have ht := ih (fun x hx => h x (List.mem_cons_of_mem d hx))
    rw [parseDigits] at ht
    rw [ht]
    simp only [List.map_cons, List.map_nil, List.foldl_cons, List.foldl_nil]
    rw [parseDigit_decDigit (h d (List.mem_cons_self d t))]
    rw [Nat.ofDigits_cons]
    ring

theorem parseDigits_natToDec (n : Nat) : parseDigits (natToDec n) = n := by
  by_cases hn : 1 ≤ n
  · rw [natToDec_eq n hn,
      parseDigits_rev_map _ (fun d hd => Nat.digits_lt_base (by norm_num) hd),
      Nat.ofDigits_digits]
  · have : n = 0 := by omega
    subst this
    decide

theorem parseDigits_replicate_zero (m : Nat) (s : Str) :
    parseDigits (List.replicate m '0' ++ s) = parseDigits s := by
  induction m with
  | zero => rfl
  | succ k ih =>
    rw [List.replicate_succ, List.cons_append]
    rw [parseDigits, List.foldl_cons]
    exact ih

theorem parseDigits_pad3 (s : Str) : parseDigits (pad3 s) = parseDigits s := by
  rw [pad3]
  split
  · exact parseDigits_replicate_zero _ s
  · rfl

theorem pad3_ne_nil {s : Str} (h : s ≠ []) : pad3 s ≠ [] := by
  rw [pad3]
  split
  · simp [h]
  · exact h

theorem pad3_digits {s : Str} (h : ∀ c ∈ s, c.isDigit = true) :
    ∀ c ∈ pad3 s, c.isDigit = true := by
  rw [pad3]
  split
  · intro c hc
    rcases List.mem_append.1 hc with hc | hc
    · rw [List.eq_of_mem_replicate hc]; decide
    · exact h c hc
  · exact h

/-- A `.v1-backup` name never ends in `.md`, so the conversion loop
always skips backup files. -/
theorem not_md_suffix_backup (x : Str) : ¬ str ".md" <:+ (x ++ str ".v1-backup") := by
  rintro ⟨t, ht⟩
  have hv : str ".v1-backup" = str ".v1-bac" ++ str "kup" := by decide
  rw [hv, ← List.append_assoc] at ht
  have h2 := (List.append_inj' ht (by decide)).2
  exact absurd h2 (by decide)

/-- `skipFor` is monotone in the directory set. -/
theorem skipFor_mono {d d' : List Str} (hsub : ∀ x ∈ d, x ∈ d') {f : Str × Str}
    (h : skipFor d f) : skipFor d' f := by
  rcases h with h | h
  · exact Or.inl h
  · exact Or.inr (hsub _ h)

/-- A skipped entry is appended to the file list and changes nothing
else. -/
theorem migStep_skip (acc : MigAcc) (f : Str × Str) (h : skipFor acc.dirs f) :
    migStep acc f = { acc with files := acc.files ++ [f] } := by
  by_cases hi : f.1 = str "_registry.md" ∨ f.1 = str "main" ∨ ¬ str ".md" <:+ f.1
  · rw [migStep, if_pos hi]
  · rcases h with h | h
    · exact absurd h hi
    · rw [migStep, if_neg hi, if_pos h]

/-- The conversion loop only ever adds directories. -/
theorem foldl_migStep_dirs_mono (l : List (Str × Str)) :
    ∀ acc : MigAcc, ∀ x ∈ acc.dirs, x ∈ (l.foldl migStep acc).dirs := by
  induction l with
  | nil => intro acc x hx; exact hx
  | cons f rest ih =>
    intro acc x hx
    apply ih
    rw [migStep]
    split
    · exact hx
    · dsimp only
      split
      · exact hx
      · exact List.mem_append_left _ hx

/-- A list of entries that are all skipped folds to a pure append. -/
theorem foldl_migStep_skip (l : List (Str × Str)) :
    ∀ acc : MigAcc, (∀ f ∈ l, skipFor acc.dirs f) →
      l.foldl migStep acc = { acc with files := acc.files ++ l } := by
  induction l with
  | nil => intro acc _; simp
  | cons f rest ih =>
    intro acc h
    have hstep := migStep_skip acc f (h f (List.mem_cons_self f rest))
    rw [List.foldl_cons, hstep,
      ih { acc with files := acc.files ++ [f] }
        (fun g hg => h g (List.mem_cons_of_mem f hg))]
    simp

/-- Invariant of the conversion loop: every file in the accumulator is
one the loop would skip, given the accumulated directory set. -/
theorem foldl_migStep_inv (l : List (Str × Str)) :
    ∀ acc : MigAcc, (∀ f ∈ acc.files, skipFor acc.dirs f) →
      ∀ f ∈ (l.foldl migStep acc).files, skipFor (l.foldl migStep acc).dirs f := by
  induction l with
  | nil => intro acc h; exact h
  | cons f rest ih =>
    intro acc h
    apply ih
    intro g hg
    rw [migStep] at hg ⊢
    by_cases hi : f.1 = str "_registry.md" ∨ f.1 = str "main" ∨ ¬ str ".md" <:+ f.1
    · rw [if_pos hi] at hg ⊢
      rcases List.mem_append.1 hg with hg | hg
      · exact h g hg
      · rw [List.mem_singleton.1 hg]; exact Or.inl hi
    · rw [if_neg hi] at hg ⊢
      by_cases hm : stripMd f.1 ∈ acc.dirs
      · rw [if_pos hm] at hg ⊢
        rcases List.mem_append.1 hg with hg | hg
        · exact h g hg
        · rw [List.mem_singleton.1 hg]; exact Or.inr hm
      · rw [if_neg hm] at hg ⊢
        rcases List.mem_append.1 hg with hg | hg
        · exact skipFor_mono (fun x hx => List.mem_append_left _ hx) (h g hg)
        · rw [List.mem_singleton.1 hg]
          exact Or.inl (Or.inr (Or.inr (not_md_suffix_backup f.1)))

@[simp] theorem migrate_rootCommits (st : MigSt) :
    (migrateV1ToV2 st).rootCommits = none := rfl

@[simp] theorem migrate_rootLog (st : MigSt) :
    (migrateV1ToV2 st).rootLog = none := rfl

@[simp] theorem migrate_marker (st : MigSt) :
    (migrateV1ToV2 st).marker = true := rfl

/-- With no legacy root journal the destination journal passes
through. -/
theorem migrate_mainCommits_of_none (st : MigSt) (h : st.rootCommits = none) :
    (migrateV1ToV2 st).mainCommits = st.mainCommits := by
  simp [migrateV1ToV2, h]

/-- With no legacy root log and a present destination log, the
destination log passes through. -/
theorem migrate_mainLog_of (st : MigSt) (h : st.rootLog = none) (x : Str)
    (hx : st.mainLog = some x) : (migrateV1ToV2 st).mainLog = st.mainLog := by
  simp [migrateV1ToV2, h, hx]

/-- With no legacy root files, no backups are added. -/
theorem migrate_rootBackups_of_none (st : MigSt) (h1 : st.rootCommits = none)
    (h2 : st.rootLog = none) : (migrateV1ToV2 st).rootBackups = st.rootBackups := by
  simp [migrateV1ToV2, h1, h2]

/-- The migrated state's log always exists. -/
theorem migrate_mainLog_isSome (st : MigSt) :
    ∃ x, (migrateV1ToV2 st).mainLog = some x := by
  simp only [migrateV1ToV2]
  rcases hrl : st.rootLog with _ | rl <;> rcases hml : st.mainLog with _ | ml <;> simp

/-- When `branches/main` already exists and every file entry would be
skipped, the conversion loop leaves the directory listing alone. -/
theorem migrate_loop_of_skip (st : MigSt) (hm : str "main" ∈ st.dirs)
    (hinv : ∀ f ∈ st.files, skipFor st.dirs f) :
    (migrateV1ToV2 st).files = st.files ∧ (migrateV1ToV2 st).dirs = st.dirs
    ∧ (migrateV1ToV2 st).branchJournals = st.branchJournals
    ∧ (migrateV1ToV2 st).branchLogs = st.branchLogs := by
  have hd0 : (if str "main" ∈ st.dirs then st.dirs else st.dirs ++ [str "main"]) = st.dirs :=
    if_pos hm
  simp only [migrateV1ToV2, hd0]
  rw [foldl_migStep_skip st.files ⟨[], st.dirs, st.branchJournals, st.branchLogs⟩ hinv]
  simp

/-- The migrated state's directory listing contains `main`. -/
theorem migrate_main_mem_dirs (st : MigSt) :
    str "main" ∈ (migrateV1ToV2 st).dirs := by
  have hd : (migrateV1ToV2 st).dirs =
      (st.files.foldl migStep
        ⟨[], if str "main" ∈ st.dirs then st.dirs else st.dirs ++ [str "main"],
          st.branchJournals, st.branchLogs⟩).dirs := rfl
  rw [hd]
  apply foldl_migStep_dirs_mono
  by_cases h : str "main" ∈ st.dirs <;> simp [h]

/-- Every file left behind by migration would be skipped by a second
conversion loop. -/
theorem migrate_files_skip (st : MigSt) :
    ∀ f ∈ (migrateV1ToV2 st).files, skipFor (migrateV1ToV2 st).dirs f := by
  have hd : (migrateV1ToV2 st).dirs =
      (st.files.foldl migStep
        ⟨[], if str "main" ∈ st.dirs then st.dirs else st.dirs ++ [str "main"],
          st.branchJournals, st.branchLogs⟩).dirs := rfl
  have hf : (migrateV1ToV2 st).files =
      (st.files.foldl migStep
        ⟨[], if str "main" ∈ st.dirs then st.dirs else st.dirs ++ [str "main"],
          st.branchJournals, st.branchLogs⟩).files := rfl
  rw [hd, hf]
  exact foldl_migStep_inv st.files _ (fun f hf => absurd hf (List.not_mem_nil f))

/-- Claim C4: migration is idempotent with respect to commit content:
a second direct invocation of `migrateV1ToV2` changes nothing at all,
and a single run on a clean legacy layout (root journal present, no
per-branch journal yet) moves the legacy journal verbatim into main's
journal; on the re-entrant edge case where a destination journal
already exists, the legacy content is appended after it, so no commit
block is lost or duplicated. -/
theorem c4_migration_idempotent :
    (∀ st : MigSt, migrateV1ToV2 (migrateV1ToV2 st) = migrateV1ToV2 st)
    ∧ (∀ (st : MigSt) (rc : Str), st.rootCommits = some rc → st.mainCommits = none →
        (migrateV1ToV2 st).mainCommits = some rc ∧ (migrateV1ToV2 st).rootCommits = none
          ∧ (migrateV1ToV2 st).marker = true)
    ∧ (∀ (st : MigSt) (rc mc : Str), st.rootCommits = some rc → st.mainCommits = some mc →
        (migrateV1ToV2 st).mainCommits = some (mc ++ str "\n" ++ rc)) := by
  refine ⟨?_, ?_, ?_⟩
  · intro st
    obtain ⟨x, hx⟩ := migrate_mainLog_isSome st
    obtain ⟨hfiles, hdirs, hbj, hbl⟩ :=
      migrate_loop_of_skip (migrateV1ToV2 st) (migrate_main_mem_dirs st)
        (migrate_files_skip st)
    refine MigSt.ext ?_ ?_ ?_ ?_ ?_ ?_ ?_ ?_ ?_ ?_
    · rw [migrate_rootCommits, migrate_rootCommits]
    · rw [migrate_rootLog, migrate_rootLog]
    · rw [migrate_mainCommits_of_none _ (migrate_rootCommits st)]
    · rw [migrate_mainLog_of _ (migrate_rootLog st) x hx]
    · exact hfiles
    · exact hdirs
    · exact hbj
    · exact hbl
    · rw [migrate_rootBackups_of_none _ (migrate_rootCommits st) (migrate_rootLog st)]
    · rw [migrate_marker, migrate_marker]
  · intro st rc h1 h2
    refine ⟨?_, rfl, rfl⟩
    simp [migrateV1ToV2, h1, h2]
  · intro st rc mc h1 h2
    simp [migrateV1ToV2, h1, h2]

/-- Claim C4 witness: the clean-layout clause at a concrete legacy
state (the second invocation clause has no hypotheses and is exercised
by the same input). -/
theorem c4_migration_idempotent_witness :
    (migrateV1ToV2 c4St).mainCommits =
      some (str "# Milestone Journal\n\n## [C001] 2026-01-01 10:00 | branch:main | t\n\n---\n\n")
    ∧ (migrateV1ToV2 c4St).rootCommits = none
    ∧ (migrateV1ToV2 c4St).marker = true :=
  c4_migration_idempotent.2.1 c4St
    (str "# Milestone Journal\n\n## [C001] 2026-01-01 10:00 | branch:main | t\n\n---\n\n")
    rfl rfl

/-- Characterisation of a `handleBranch` call whose guards pass while
the registry file is missing: success message, registry untouched
(still missing), directory created, journal header written when the
journal was absent. -/
theorem handleBranch_ok (st : St) (n p h d : Str) (hk : isKebab n = true)
    (hp : p ≠ []) (hh : h ≠ []) (hreg : st.registry = none)
    (hd : st.dirs n = false) :
    (handleBranch st n p h d).1 =
      str "Created branch \x27" ++ n ++ str "\x27. Now on branch:" ++ n ++
        str ". Use gcc_commit to record milestones, gcc_merge when done."
    ∧ (handleBranch st n p h d).2.registry = none
    ∧ (∀ x, (handleBranch st n p h d).2.dirs x = if x = n then true else st.dirs x)
    ∧ (handleBranch st n p h d).2.journals n =
        some ((st.journals n).getD (branchHeaderDoc n p h)) := by
  have hn : n ≠ [] := isKebab_ne_nil hk
  have hact : getActiveBranch st = str "main" := by simp [getActiveBranch, hreg]
  simp only [handleBranch]
  rw [if_neg (by simp [hn, hp, hh])]
  rw [if_neg (by simp [hk])]
  rw [if_neg (by simp [hact])]
  rw [if_neg (by simp [hd])]
  refine ⟨rfl, ?_, ?_, ?_⟩
  · cases hj : st.journals n <;> cases hl : st.logs n <;>
      simp [ensureBranchDirSt, appendLogSt, updateRegistryActiveBranchSt,
        addBranchToRegistrySt, setDir, setJournal, setLog, hj, hl, hreg]
  · intro x
    by_cases hx : x = n <;>
      cases hj : st.journals n <;> cases hl : st.logs n <;>
        simp [ensureBranchDirSt, appendLogSt, updateRegistryActiveBranchSt,
          addBranchToRegistrySt, setDir, setJournal, setLog, hj, hl, hx]
  · cases hj : st.journals n <;> cases hl : st.logs n <;>
      simp [ensureBranchDirSt, appendLogSt, updateRegistryActiveBranchSt,
        addBranchToRegistrySt, setDir, setJournal, setLog, hj, hl]

/-- Claim C9: with the registry file missing, a valid `branch` call
still succeeds and creates the branch directory and journal, while the
registry stays missing (active-branch write and history-row append
silently skipped); `getActive` still reports `main`, so a second valid
`branch` call with a different name also passes the must-be-on-main
guard and succeeds, leaving both branches created while on `main`. -/
theorem c9_branch_without_registry (st : St) (n1 p1 h1 n2 p2 h2 d : Str)
    (hreg : st.registry = none)
    (hk1 : isKebab n1 = true) (hp1 : p1 ≠ []) (hh1 : h1 ≠ [])
    (hk2 : isKebab n2 = true) (hp2 : p2 ≠ []) (hh2 : h2 ≠ [])
    (hd1 : st.dirs n1 = false) (hd2 : st.dirs n2 = false)
    (hj1 : st.journals n1 = none) (hne : n2 ≠ n1) :
    (handleBranch st n1 p1 h1 d).1 =
      str "Created branch \x27" ++ n1 ++ str "\x27. Now on branch:" ++ n1 ++
        str ". Use gcc_commit to record milestones, gcc_merge when done."
    ∧ (handleBranch st n1 p1 h1 d).2.registry = none
    ∧ (handleBranch st n1 p1 h1 d).2.dirs n1 = true
    ∧ (handleBranch st n1 p1 h1 d).2.journals n1 = some (branchHeaderDoc n1 p1 h1)
    ∧ getActiveBranch (handleBranch st n1 p1 h1 d).2 = str "main"
    ∧ (handleBranch (handleBranch st n1 p1 h1 d).2 n2 p2 h2 d).1 =
        str "Created branch \x27" ++ n2 ++ str "\x27. Now on branch:" ++ n2 ++
          str ". Use gcc_commit to record milestones, gcc_merge when done."
    ∧ (handleBranch (handleBranch st n1 p1 h1 d).2 n2 p2 h2 d).2.registry = none
    ∧ (handleBranch (handleBranch st n1 p1 h1 d).2 n2 p2 h2 d).2.dirs n1 = true
    ∧ (handleBranch (handleBranch st n1 p1 h1 d).2 n2 p2 h2 d).2.dirs n2 = true := by
  obtain ⟨m1, r1, d1, j1⟩ := handleBranch_ok st n1 p1 h1 d hk1 hp1 hh1 hreg hd1
  have hd2' : (handleBranch st n1 p1 h1 d).2.dirs n2 = false := by
    rw [d1 n2, if_neg hne]; exact hd2
  obtain ⟨m2, r2, d2, _⟩ :=
    handleBranch_ok (handleBranch st n1 p1 h1 d).2 n2 p2 h2 d hk2 hp2 hh2 r1 hd2'
  refine ⟨m1, r1, ?_, ?_, ?_, m2, r2, ?_, ?_⟩
  · rw [d1 n1, if_pos rfl]
  · rw [j1, hj1]; rfl
  · simp [getActiveBranch, r1]
  · rw [d2 n1]
    by_cases hx : n1 = n2
    · simp [hx]
    · rw [if_neg hx, d1 n1, if_pos rfl]
  · rw [d2 n2, if_pos rfl]

/-- The rendered commit block starts with `## [C`, the padded digits,
and `]`. -/
theorem mkEntry_shape (n : Nat) (f : CommitFields) :
    ∃ t, mkEntry (cidStr n) f = str "## [C" ++ (pad3 (natToDec n) ++ ']' :: t) := by
  refine ⟨' ' :: (f.ts ++ (str " | branch:" ++ (f.branch ++ (str " | " ++
    (f.title ++ (str "\n**What**: " ++ (f.what ++ (str "\n**Why**: " ++
    (f.why ++ (str "\n**Files**: " ++ (f.files ++ (str "\n**Next**: " ++
    (f.next ++ str "\n\n---\n\n"))))))))))))), ?_⟩
  rw [mkEntry, cidStr]
  have e1 : str "## [" = ['#', '#', ' ', '['] := rfl
  have e2 : str "## [C" = ['#', '#', ' ', '[', 'C'] := rfl
  have e3 : str "] " = [']', ' '] := rfl
  rw [e1, e2, e3]
  simp [List.append_assoc]

/-- Inserting at the journal anchor: when the document is `A ++ X`
with the anchor ending exactly at `A`'s boundary, `prependCommit`
inserts the entry right there. -/
theorem prepend_at_anchor {A : Str} {i : Nat} (X entry : Str)
    (hfi : firstIdx journalAnchor A = some i)
    (hlen : A.length = i + journalAnchor.length) :
    prependCommitStr (some (A ++ X)) entry = A ++ entry ++ X := by
  rw [prependCommitStr]
  simp only [Option.getD_some]
  rw [firstIdx_append X hfi]
  dsimp only
  have ht : (A ++ X).take (i + journalAnchor.length) = A := by
    rw [← hlen]; exact List.take_left _ _
  have hd : (A ++ X).drop (i + journalAnchor.length) = X := by
    rw [← hlen]; exact List.drop_left _ _
  rw [ht, hd]

/-- Invariant of a run of commits on a journal of the form
`A ++ E ++ B`: `A` ends with the journal anchor and is marker-free,
and `E` (the blocks written so far, newest first) is empty at step 0
and afterwards starts with the marker of commit `k`.  Each step
allocates `C(k+1)` and inserts its block at the anchor, in front of
`E`. -/
theorem commitRun_inv (A B : Str) (i : Nat)
    (hA : findMarker A = none)
    (hfi : firstIdx journalAnchor A = some i)
    (hlen : A.length = i + journalAnchor.length)
    (hAB : findMarker (A ++ B) = none) :
    ∀ (fs : List CommitFields) (k : Nat) (E : Str),
      ((k = 0 ∧ E = []) ∨
        (1 ≤ k ∧ ∃ D t, E = str "## [C" ++ (D ++ ']' :: t) ∧ D ≠ [] ∧
          (∀ c ∈ D, c.isDigit = true) ∧ parseDigits D = k)) →
      commitRun (some (A ++ E ++ B)) fs =
        (some (A ++ revEntries k fs ++ E ++ B),
          (List.range fs.length).map (fun j => cidStr (k + j + 1))) := by
  intro fs
  induction fs with
  | nil =>
    intro k E hE
    simp [commitRun, revEntries]
  | cons f fs ih =>
    intro k E hE
    have hcid : getNextCommitId (some (A ++ E ++ B)) = cidStr (k + 1) := by
      rcases hE with ⟨hk, hEnil⟩ | ⟨hk, D, t, hEeq, hD, hdig, hparse⟩
      · subst hEnil
        subst hk
        simp only [getNextCommitId]
        have hJ : A ++ ([] : Str) ++ B = A ++ B := by simp
        rw [hJ, hAB]
        decide
      · subst hEeq
        simp only [getNextCommitId]
        have hre : A ++ (str "## [C" ++ (D ++ ']' :: t)) ++ B =
            A ++ (str "## [C" ++ (D ++ ']' :: (t ++ B))) := by
          simp [List.append_assoc]
        rw [hre, findMarker_entry hA hD hdig (t ++ B), hparse]
    have hstep : commitStep (some (A ++ E ++ B)) f =
        (cidStr (k + 1), A ++ (entryOf k f ++ E) ++ B) := by
      rw [commitStep, hcid]
      have h1 : A ++ E ++ B = A ++ (E ++ B) := by simp [List.append_assoc]
      rw [h1, prepend_at_anchor (E ++ B) _ hfi hlen, entryOf]
      simp [List.append_assoc]
    obtain ⟨T, hT⟩ := mkEntry_shape (k + 1) f
    have hE' : entryOf k f ++ E =
        str "## [C" ++ (pad3 (natToDec (k + 1)) ++ ']' :: (T ++ E)) := by
      rw [entryOf, hT]
      simp [List.append_assoc]
    have hrun := ih (k + 1) (entryOf k f ++ E)
      (Or.inr ⟨by omega, pad3 (natToDec (k + 1)), T ++ E, hE',
        pad3_ne_nil (natToDec_ne_nil _), pad3_digits (natToDec_digits _),
        by rw [parseDigits_pad3, parseDigits_natToDec]⟩)
    simp only [commitRun, hstep, hrun]
    rw [Prod.mk.injEq]
    refine ⟨?_, ?_⟩
    · rw [revEntries]
      simp [List.append_assoc]
    · simp only [List.length_cons]
      rw [List.range_succ_eq_map, List.map_cons, List.map_map]
      rw [List.cons.injEq]
      refine ⟨by norm_num, ?_⟩
      refine List.map_congr_left ?_
      intro j _
      have harith : k + 1 + j + 1 = k + (j + 1) + 1 := by omega
      simp [Function.comp, harith]

/-- `updateMainMilestones` at the state level never touches journals. -/
theorem updateMainMilestonesSt_journals (st : St) (d b t : Str) :
    (updateMainMilestonesSt st d b t).journals = st.journals := by
  rw [updateMainMilestonesSt]
  split <;> rfl

/-- A commit writes only the active branch's journal. -/
theorem handleCommit_other_journal (st : St) (t w y : Str) (fsc : List Str)
    (ns ts b : Str) (hb : b ≠ getActiveBranch st) :
    (handleCommit st t w y fsc ns ts).2.journals b = st.journals b := by
  rw [handleCommit]
  split
  · rfl
  · simp [appendLogSt_journals, updateMainMilestonesSt_journals,
      setLog_journals, setDir_journals, setJournal, hb]

/-- Claim C1 counterexample: on the marker-free journal `hello`
(which lacks the `# Milestone Journal` anchor and any blank line),
three successive commits allocate `C001`, `C002`, `C002` — the third
allocation repeats an identifier instead of incrementing, because the
second block was inserted after the first. -/
theorem c1_anchorless_duplicate :
    findMarker (str "hello") = none
    ∧ (commitRun (some (str "hello")) [c1F, c1F, c1F]).2 =
        [str "C001", str "C002", str "C002"]
    ∧ [str "C001", str "C002", str "C002"] ≠
        [str "C001", str "C002", str "C003"] := by
  decide

/-- Claim C1 amended: for a journal containing no commit marker and
containing the `# Milestone Journal\n\n` anchor (as every journal the
program creates does), successive commits allocate `C001, C002, ...`
(each id is the previous plus 1, zero-padded to width 3, width growing
past 999 as in `C1000`), every new block is inserted at the anchor in
front of all previously written blocks, and a commit touches no other
branch's journal, so numbering is independent across branches (each
starting at `C001`). -/
theorem c1_commit_ids (j0 : Str) (i : Nat)
    (hmf : findMarker j0 = none)
    (hanchor : firstIdx journalAnchor j0 = some i)
    (fs : List CommitFields) :
    (commitRun (some j0) fs).2 =
      (List.range fs.length).map (fun k => cidStr (k + 1))
    ∧ (commitRun (some j0) fs).1 =
        some (j0.take (i + journalAnchor.length) ++ revEntries 0 fs ++
          j0.drop (i + journalAnchor.length))
    ∧ cidStr 1000 = str "C1000"
    ∧ (∀ (st : St) (t w y : Str) (fsc : List Str) (ns ts b : Str),
        b ≠ getActiveBranch st →
        (handleCommit st t w y fsc ns ts).2.journals b = st.journals b) := by
  have hsplit : j0 = j0.take (i + journalAnchor.length) ++
      j0.drop (i + journalAnchor.length) := (List.take_append_drop _ _).symm
  have hA : findMarker (j0.take (i + journalAnchor.length)) = none := by
    apply findMarker_append_none (B := j0.drop (i + journalAnchor.length))
    rw [← hsplit]
    exact hmf
  have hfiA : firstIdx journalAnchor (j0.take (i + journalAnchor.length)) = some i :=
    firstIdx_take hanchor
  have hlenA : (j0.take (i + journalAnchor.length)).length =
      i + journalAnchor.length := by
    rw [List.length_take]
    have := firstIdx_bound hanchor
    omega
  have hAB : findMarker (j0.take (i + journalAnchor.length) ++
      j0.drop (i + journalAnchor.length)) = none := by
    rw [← hsplit]; exact hmf
  have hrun := commitRun_inv _ _ i hA hfiA hlenA hAB fs 0 [] (Or.inl ⟨rfl, rfl⟩)
  have hJ : j0.take (i + journalAnchor.length) ++ ([] : Str) ++
      j0.drop (i + journalAnchor.length) = j0 := by
    rw [List.append_nil, ← hsplit]
  rw [hJ] at hrun
  refine ⟨?_, ?_, by decide, fun st t w y fsc ns ts b hb =>
    handleCommit_other_journal st t w y fsc ns ts b hb⟩
  · rw [hrun]
    refine List.map_congr_left ?_
    intro j _
    have : 0 + j + 1 = j + 1 := by omega
    rw [this]
  · rw [hrun]
    simp

/-- Claim C1 witness: one commit on the fresh journal template
allocates `C001`. -/
theorem c1_commit_ids_witness :
    (commitRun (some (str "# Milestone Journal\n\n")) [c1F]).2 = [str "C001"] := by
  have h := c1_commit_ids (str "# Milestone Journal\n\n") 0 (by decide) (by decide) [c1F]
  exact h.1.trans (by decide)

/-- Claim C7 counterexample: after a commit with configured cap 0 the
new entry does not appear at all (so "the entry added appears first"
fails), and after a commit whose title contains newlines the Recent
Milestones list holds 6 bullet lines, exceeding the default cap 5. -/
theorem c7_cap_zero_and_newline :
    msBullets (((handleCommit { freshSt with milestonesKept := 0 } (str "t")
        (str "w") (str "y") [str "f"] (str "n")
        (str "2026-01-02 03:04")).2.mainMd).getD []) = []
    ∧ ¬ str "Error" <+: (handleCommit { freshSt with milestonesKept := 0 } (str "t")
        (str "w") (str "y") [str "f"] (str "n") (str "2026-01-02 03:04")).1
    ∧ 5 < (msBullets (((handleCommit freshSt
        (str "t\n- f1\n- f2\n- f3\n- f4\n- f5") (str "w") (str "y") [str "f"]
        (str "n") (str "2026-01-02 03:04")).2.mainMd).getD [])).length
    ∧ ¬ str "Error" <+: (handleCommit freshSt
        (str "t\n- f1\n- f2\n- f3\n- f4\n- f5") (str "w") (str "y") [str "f"]
        (str "n") (str "2026-01-02 03:04")).1 := by
  decide

theorem splitOnNl_no_nl (x : Str) : ∀ l ∈ splitOnNl x, '\n' ∉ l := by
  induction x with
  | nil =>
    intro l hl
    rw [List.mem_singleton.1 hl]
    simp
  | cons c t ih =>
    intro l hl
    rw [splitOnNl] at hl
    by_cases hc : c = '\n'
    · rw [if_pos hc] at hl
      rcases List.mem_cons.1 hl with h | h
      · rw [h]; simp
      · exact ih l h
    · rw [if_neg hc] at hl
      cases hsp : splitOnNl t with
      | nil =>
        rw [hsp] at hl
        simp at hl
        subst hl
        intro hmem
        exact hc (List.mem_singleton.1 hmem).symm
      | cons y ys =>
        rw [hsp] at hl
        rcases List.mem_cons.1 hl with h | h
        · rw [h]
          intro hmem
          rcases List.mem_cons.1 hmem with h2 | h2
          · exact hc h2.symm
          · exact ih y (hsp ▸ List.mem_cons_self y ys) h2
        · exact ih l (hsp ▸ List.mem_cons_of_mem y h)

theorem splitOnNl_append_cons {X : Str} (Y : Str) (hX : '\n' ∉ X) :
    splitOnNl (X ++ '\n' :: Y) = X :: splitOnNl Y := by
  induction X with
  | nil => simp [splitOnNl]
  | cons c t ih =>
    have hc : c ≠ '\n' := fun h => hX (h ▸ List.mem_cons_self c t)
    have ht : '\n' ∉ t := fun h => hX (List.mem_cons_of_mem c h)
    rw [List.cons_append, splitOnNl, if_neg hc, ih ht]

theorem splitOnNl_join (lines : List Str) (hnl : ∀ l ∈ lines, '\n' ∉ l)
    (hne : lines ≠ []) : splitOnNl (joinNl lines ++ ['\n']) = lines ++ [[]] := by
  induction lines with
  | nil => exact absurd rfl hne
  | cons l ls ih =>
    cases ls with
    | nil =>
      have hl : '\n' ∉ l := hnl l (List.mem_cons_self l [])
      have : joinNl [l] ++ ['\n'] = l ++ '\n' :: [] := rfl
      rw [this, splitOnNl_append_cons [] hl]
      rfl
    | cons l2 ls2 =>
      have hl : '\n' ∉ l := hnl l (List.mem_cons_self l _)
      have hrest : ∀ x ∈ l2 :: ls2, '\n' ∉ x :=
        fun x hx => hnl x (List.mem_cons_of_mem l hx)
      have hjoin : joinNl (l :: l2 :: ls2) ++ ['\n'] =
          l ++ '\n' :: (joinNl (l2 :: ls2) ++ ['\n']) := by
        have he : joinNl (l :: l2 :: ls2) = l ++ '\n' :: joinNl (l2 :: ls2) := rfl
        rw [he]
        simp
      have hne2 : l2 :: ls2 ≠ [] := fun hcon => List.noConfusion hcon
      rw [hjoin, splitOnNl_append_cons _ hl, ih hrest hne2]
      rfl

/-- The head of a joined nonempty line list is the first line's head. -/
theorem joinNl_cons_exists (x : Str) (xs : List Str) :
    ∃ z, joinNl (x :: xs) = x ++ z := by
  cases xs with
  | nil => exact ⟨[], by simp [joinNl]⟩
  | cons y ys => exact ⟨'\n' :: joinNl (y :: ys), rfl⟩

/-- No `\n## ` match can start inside a newline-free segment. -/
theorem nlfree_no_pat {s1 : Str} (hnl : '\n' ∉ s1) (rest : Str) :
    ∀ j < s1.length, ¬ str "\n## " <+: (s1 ++ rest).drop j := by
  induction s1 with
  | nil => intro j hj; simp at hj
  | cons c t ih =>
    intro j hj hpre
    match j with
    | 0 =>
      obtain ⟨u, hu⟩ := hpre
      have : c = '\n' := by
        have h0 := congrArg (fun l => l.head?) hu
        simpa [str] using h0.symm
      exact hnl (this ▸ List.mem_cons_self c t)
    | j + 1 =>
      exact ih (fun h => hnl (List.mem_cons_of_mem c h)) j
        (by simpa using hj) (by simpa using hpre)

/-- No `\n## ` match can start inside the joined milestone lines or at
the closing newline, when every line is a bullet without newlines and
the following text is empty or starts with a newline. -/
theorem no_nlhash_join (lines : List Str)
    (h : ∀ l ∈ lines, (str "- ") <+: l ∧ '\n' ∉ l) (hne : lines ≠ [])
    (A : Str) (hA : A = [] ∨ ∃ A2, A = '\n' :: A2) :
    ∀ j ≤ (joinNl lines).length,
      ¬ str "\n## " <+: (joinNl lines ++ '\n' :: A).drop j := by
  induction lines with
  | nil => exact absurd rfl hne
  | cons l ls ih =>
    intro j hj hpre
    cases ls with
    | nil =>
      have hl := h l (List.mem_cons_self l _)
      simp only [joinNl] at hj hpre
      rcases Nat.lt_or_ge j l.length with hlt | hge
      · exact nlfree_no_pat hl.2 ('\n' :: A) j hlt hpre
      · have hj2 : j = l.length := by omega
        subst hj2
        rw [List.drop_append_of_le_length (Nat.le_refl _), List.drop_length,
          List.nil_append] at hpre
        obtain ⟨u, hu⟩ := hpre
        rcases hA with rfl | ⟨A2, rfl⟩
        · have := congrArg List.length hu
          simp [str] at this
        · have h1 := congrArg (fun l => l.drop 1) hu
          have : str "\n## " = '\n' :: '#' :: '#' :: ' ' :: [] := rfl
          rw [this] at h1
          simp at h1
    | cons l2 ls2 =>
      have hl := h l (List.mem_cons_self l _)
      have hjoin : joinNl (l :: l2 :: ls2) = l ++ '\n' :: joinNl (l2 :: ls2) := rfl
      rw [hjoin] at hj hpre
      rw [List.append_assoc, List.cons_append] at hpre
      rcases Nat.lt_or_ge j l.length with hlt | hge
      · exact nlfree_no_pat hl.2 _ j hlt hpre
      · rcases Nat.eq_or_lt_of_le hge with hj2 | hgt
        · rw [← hj2] at hpre
          rw [List.drop_append_of_le_length (by omega), List.drop_eq_nil_of_le (by omega),
            List.nil_append] at hpre
          obtain ⟨u, hu⟩ := hpre
          have hpat : str "\n## " = '\n' :: '#' :: '#' :: ' ' :: [] := rfl
          rw [hpat] at hu
          simp only [List.cons_append, List.cons.injEq] at hu
          obtain ⟨-, hu2⟩ := hu
          obtain ⟨z, hz⟩ := joinNl_cons_exists l2 ls2
          have hl2 := h l2 (List.mem_cons_of_mem l (List.mem_cons_self l2 _))
          obtain ⟨v, hv⟩ := hl2.1
          rw [hz, ← hv] at hu2
          have hh := congrArg (fun l => l.head?) hu2
          have hsv : str "- " = '-' :: ' ' :: [] := rfl
          rw [hsv] at hh
          simp only [List.cons_append, List.head?_cons, Option.some.injEq] at hh
          exact absurd hh (by decide)
        · have hj3 : j = l.length + 1 + (j - l.length - 1) := by omega
          rw [hj3] at hpre
          have hd : (l ++ '\n' :: (joinNl (l2 :: ls2) ++ '\n' :: A)).drop
              (l.length + 1 + (j - l.length - 1)) =
              (joinNl (l2 :: ls2) ++ '\n' :: A).drop (j - l.length - 1) := by
            rw [show l.length + 1 + (j - l.length - 1) =
              (l ++ ['\n']).length + (j - l.length - 1) by simp]
            rw [show l ++ '\n' :: (joinNl (l2 :: ls2) ++ '\n' :: A) =
              (l ++ ['\n']) ++ (joinNl (l2 :: ls2) ++ '\n' :: A) by simp]
            rw [List.drop_append]
          rw [hd] at hpre
          simp only [List.length_append, List.length_cons] at hj
          exact ih (fun x hx => h x (List.mem_cons_of_mem l hx))
            (fun hcon => List.noConfusion hcon) (j - l.length - 1) (by omega) hpre

/-- No `\n## ` match can start strictly before the written-back section
content (heading tail, heading newline, joined bullets, closing
newline). -/
theorem milestones_no_early_pat (upd : List Str) (A : Str)
    (h : ∀ l ∈ upd, (str "- ") <+: l ∧ '\n' ∉ l) (hne : upd ≠ [])
    (hA : A = [] ∨ ∃ A2, A = '\n' :: A2) :
    ∀ j < 21 + (joinNl upd).length,
      ¬ str "\n## " <+:
        (str "# Recent Milestones" ++ '\n' :: (joinNl upd ++ '\n' :: A)).drop j := by
  intro j hj hpre
  rcases Nat.lt_or_ge j 19 with h19 | h19
  · refine nlfree_no_pat (by decide) _ j ?_ hpre
    have hl19 : (str "# Recent Milestones").length = 19 := by decide
    omega
  · rcases Nat.eq_or_lt_of_le h19 with h19e | h20
    · rw [← h19e] at hpre
      have hd19 : (str "# Recent Milestones" ++ '\n' :: (joinNl upd ++ '\n' :: A)).drop 19 =
          '\n' :: (joinNl upd ++ '\n' :: A) := by
        rw [show (19 : Nat) = (str "# Recent Milestones").length from rfl, List.drop_left]
      rw [hd19] at hpre
      obtain ⟨u, hu⟩ := hpre
      have hpat : str "\n## " = '\n' :: '#' :: '#' :: ' ' :: [] := rfl
      rw [hpat] at hu
      simp only [List.cons_append, List.cons.injEq] at hu
      obtain ⟨-, hu2⟩ := hu
      obtain ⟨x, xs, hx⟩ : ∃ x xs, upd = x :: xs := by
        cases upd with
        | nil => exact absurd rfl hne
        | cons a as => exact ⟨a, as, rfl⟩
      obtain ⟨z, hz⟩ := joinNl_cons_exists x xs
      obtain ⟨v, hv⟩ := (h x (hx ▸ List.mem_cons_self x xs)).1
      rw [hx, hz, ← hv] at hu2
      have hh := congrArg (fun l => l.head?) hu2
      have hsv : str "- " = '-' :: ' ' :: [] := rfl
      rw [hsv] at hh
      simp only [List.cons_append, List.head?_cons, Option.some.injEq] at hh
      exact absurd hh (by decide)
    · have hd20 : (str "# Recent Milestones" ++ '\n' :: (joinNl upd ++ '\n' :: A)).drop
          (20 + (j - 20)) = (joinNl upd ++ '\n' :: A).drop (j - 20) := by
        rw [show str "# Recent Milestones" ++ '\n' :: (joinNl upd ++ '\n' :: A) =
          (str "# Recent Milestones" ++ ['\n']) ++ (joinNl upd ++ '\n' :: A) by simp]
        rw [show (20 : Nat) + (j - 20) =
          (str "# Recent Milestones" ++ ['\n']).length + (j - 20) by
            have h20l : (str "# Recent Milestones" ++ ['\n']).length = 20 := by decide
            rw [h20l]]
        rw [List.drop_append]
      rw [show j = 20 + (j - 20) by omega] at hpre
      rw [hd20] at hpre
      exact no_nlhash_join upd h hne A hA (j - 20) (by omega) hpre

/-- `updateMainMilestones` when the heading is found: the written
content has the reconstructed shape. -/
theorem updateMainMilestones_spec {content : Str} {s : Nat} (date branch title : Str)
    (cap : Nat) (hs : firstIdx msHeading content = some s) :
    updateMainMilestones (some content) date branch title cap =
      some (content.take s ++ (msHeading ++ '\n' ::
        (joinNl ((renderMilestone date branch title :: msLines content).take cap) ++
          '\n' :: content.drop (sectionEndFrom content s)))) := by
  simp only [updateMainMilestones, msLines, hs]
  simp only [show ∀ X : Str, str "\n" ++ X = '\n' :: X from fun X => rfl,
    List.append_assoc, List.cons_append]

/-- The bullet lines a reader extracts from a written-back milestone
section are exactly the updated list. -/
theorem msBullets_shape (P A : Str) (upd : List Str)
    (h : ∀ l ∈ upd, (str "- ") <+: l ∧ '\n' ∉ l) (hne : upd ≠ [])
    (hA : A = [] ∨ str "\n## " <+: A)
    (hfi : firstIdx msHeading
      (P ++ (msHeading ++ '\n' :: (joinNl upd ++ '\n' :: A))) = some P.length) :
    msBullets (P ++ (msHeading ++ '\n' :: (joinNl upd ++ '\n' :: A))) = upd := by
  have hA2 : A = [] ∨ ∃ A2, A = '\n' :: A2 := by
    rcases hA with rfl | ⟨u, hu⟩
    · exact Or.inl rfl
    · exact Or.inr ⟨str "## " ++ u, by rw [← hu]; rfl⟩
  have hmin := milestones_no_early_pat upd A h hne hA2
  have hmslen : msHeading.length = 20 := by decide
  have hlen19 : (str "# Recent Milestones").length = 19 := by decide
  have hdrop1 : (P ++ (msHeading ++ '\n' :: (joinNl upd ++ '\n' :: A))).drop (P.length + 1) =
      str "# Recent Milestones" ++ '\n' :: (joinNl upd ++ '\n' :: A) := by
    rw [List.drop_append]
    rfl
  have hXlen : (str "# Recent Milestones" ++ '\n' :: (joinNl upd ++ ['\n'])).length =
      21 + (joinNl upd).length := by
    simp only [List.length_append, List.length_cons, List.length_nil, hlen19]
    omega
  have hassoc : str "# Recent Milestones" ++ '\n' :: (joinNl upd ++ '\n' :: A) =
      (str "# Recent Milestones" ++ '\n' :: (joinNl upd ++ ['\n'])) ++ A := by
    simp
  have he' : sectionEndFrom (P ++ (msHeading ++ '\n' :: (joinNl upd ++ '\n' :: A))) P.length =
      P.length + (22 + (joinNl upd).length) := by
    rcases hA with rfl | hApre
    · have hnone : firstIdx (str "\n## ")
          (str "# Recent Milestones" ++ '\n' :: (joinNl upd ++ '\n' :: ([] : Str))) = none := by
        cases hfi2 : firstIdx (str "\n## ")
            (str "# Recent Milestones" ++ '\n' :: (joinNl upd ++ '\n' :: ([] : Str))) with
        | none => rfl
        | some i =>
          exfalso
          have hb1 := firstIdx_bound hfi2
          have hlenD : (str "# Recent Milestones" ++
              '\n' :: (joinNl upd ++ '\n' :: ([] : Str))).length =
              21 + (joinNl upd).length := by
            simp only [List.length_append, List.length_cons, List.length_nil, hlen19]
            omega
          have hp4 : (str "\n## ").length = 4 := by decide
          rw [hlenD, hp4] at hb1
          exact hmin i (by omega) ( firstIdx_prefix hfi2)
      have hfnone : firstIdxFrom (str "\n## ")
          (P ++ (msHeading ++ '\n' :: (joinNl upd ++ '\n' :: ([] : Str)))) (P.length + 1) =
          none := by
        rw [firstIdxFrom, hdrop1, hnone]
        rfl
      simp only [sectionEndFrom, hfnone]
      simp only [List.length_append, List.length_cons, List.length_nil, hmslen]
      omega
    · have hsome : firstIdx (str "\n## ")
          (str "# Recent Milestones" ++ '\n' :: (joinNl upd ++ '\n' :: A)) =
          some (21 + (joinNl upd).length) := by
        refine firstIdx_eq_some ?_ (fun j hj => hmin j hj)
        rw [hassoc, ← hXlen, List.drop_left]
        exact hApre
      have hfsome : firstIdxFrom (str "\n## ")
          (P ++ (msHeading ++ '\n' :: (joinNl upd ++ '\n' :: A))) (P.length + 1) =
          some (21 + (joinNl upd).length + (P.length + 1)) := by
        rw [firstIdxFrom, hdrop1, hsome]
        rfl
      simp only [sectionEndFrom, hfsome]
      omega
  have hX2len : (msHeading ++ '\n' :: (joinNl upd ++ ['\n'])).length =
      22 + (joinNl upd).length := by
    simp only [List.length_append, List.length_cons, List.length_nil, hmslen]
    omega
  have htake : (P ++ (msHeading ++ '\n' :: (joinNl upd ++ '\n' :: A))).take
      (P.length + (22 + (joinNl upd).length)) =
      P ++ (msHeading ++ '\n' :: (joinNl upd ++ ['\n'])) := by
    rw [List.take_append]
    have hassoc2 : msHeading ++ '\n' :: (joinNl upd ++ '\n' :: A) =
        (msHeading ++ '\n' :: (joinNl upd ++ ['\n'])) ++ A := by simp
    rw [hassoc2, ← hX2len, List.take_left]
  have hdropP : (P ++ (msHeading ++ '\n' :: (joinNl upd ++ ['\n']))).drop P.length =
      msHeading ++ '\n' :: (joinNl upd ++ ['\n']) := List.drop_left _ _
  have hsplit : splitOnNl (msHeading ++ '\n' :: (joinNl upd ++ ['\n'])) =
      msHeading :: (upd ++ [[]]) := by
    rw [splitOnNl_append_cons _ (by decide),
      splitOnNl_join upd (fun l hl => (h l hl).2) hne]
  have hfil : (msHeading :: (upd ++ [([] : Str)])).filter
      (fun l => (str "- ").isPrefixOf l) = upd := by
    rw [List.filter_cons_of_neg (by decide), List.filter_append,
      List.filter_eq_self.mpr (fun a ha => List.isPrefixOf_iff_prefix.2 (h a ha).1),
      List.filter_cons_of_neg (by decide), List.filter_nil, List.append_nil]
  simp only [msBullets, hfi, he', htake, hdropP, hsplit, hfil]

/-- Claim C7 (amended): for any main.md content containing the Recent
Milestones heading, any configured cap of at least 1, and a date,
branch and title free of newlines, `updateMainMilestones` writes a
content whose Recent Milestones bullet list is the new entry followed
by the previously kept bullets, truncated to the cap: its length is at
most the cap, the new entry is first, and the placeholder line
`- (none yet)` is absent. -/
theorem c7_milestones_capped {content date branch title : Str} {s : Nat} {cap : Nat}
    (hs : firstIdx msHeading content = some s) (hcap : 1 ≤ cap)
    (hd : '\n' ∉ date) (hb : '\n' ∉ branch) (ht : '\n' ∉ title) :
    ∃ c2, updateMainMilestones (some content) date branch title cap = some c2 ∧
      msBullets c2 = (renderMilestone date branch title :: msLines content).take cap ∧
      (msBullets c2).length ≤ cap ∧
      (msBullets c2).head? = some (renderMilestone date branch title) ∧
      str "- (none yet)" ∉ msBullets c2 := by
  obtain ⟨c, rfl⟩ : ∃ c, cap = c + 1 := ⟨cap - 1, by omega⟩
  have hML : msLines content =
      (splitOnNl ((content.take (sectionEndFrom content s)).drop s)).filter msLineKeep := by
    simp only [msLines, hs]
  have hlines_props : ∀ l ∈ msLines content, (str "- ") <+: l ∧ '\n' ∉ l := by
    intro l hl
    rw [hML] at hl
    have h1 := List.of_mem_filter hl
    have h2 := List.mem_of_mem_filter hl
    rw [msLineKeep, Bool.and_eq_true] at h1
    exact ⟨List.isPrefixOf_iff_prefix.1 h1.1, splitOnNl_no_nl _ l h2⟩
  have hnew_pre : (str "- ") <+: renderMilestone date branch title :=
    ⟨date ++ str ": " ++ title ++ str " (" ++ branch ++ str ")", rfl⟩
  have hnew_nl : '\n' ∉ renderMilestone date branch title := by
    rw [renderMilestone]
    intro hmem
    rcases List.mem_append.1 hmem with hmem | h1
    · rcases List.mem_append.1 hmem with hmem | h1
      · rcases List.mem_append.1 hmem with hmem | h1
        · rcases List.mem_append.1 hmem with hmem | h1
          · rcases List.mem_append.1 hmem with hmem | h1
            · rcases List.mem_append.1 hmem with h1 | h1
              · exact absurd h1 (by decide)
              · exact hd h1
            · exact absurd h1 (by decide)
          · exact ht h1
        · exact absurd h1 (by decide)
      · exact hb h1
    · exact absurd h1 (by decide)
  have hupd_props : ∀ l ∈ (renderMilestone date branch title :: msLines content).take (c + 1),
      (str "- ") <+: l ∧ '\n' ∉ l := by
    intro l hl
    rcases List.mem_cons.1 (List.mem_of_mem_take hl) with rfl | hmem
    · exact ⟨hnew_pre, hnew_nl⟩
    · exact hlines_props l hmem
  have hupd_ne : (renderMilestone date branch title :: msLines content).take (c + 1) ≠ [] := by
    rw [List.take_succ_cons]
    exact fun hcon => List.noConfusion hcon
  have hAs : content.drop (sectionEndFrom content s) = [] ∨
      str "\n## " <+: content.drop (sectionEndFrom content s) := by
    cases hf : firstIdxFrom (str "\n## ") content (s + 1) with
    | none =>
      left
      have he : sectionEndFrom content s = content.length := by
        simp only [sectionEndFrom, hf]
      rw [he]
      exact List.drop_length content
    | some n =>
      right
      have he : sectionEndFrom content s = n := by
        simp only [sectionEndFrom, hf]
      rw [firstIdxFrom] at hf
      cases hr : firstIdx (str "\n## ") (content.drop (s + 1)) with
      | none =>
        rw [hr] at hf
        simp at hf
      | some r =>
        rw [hr] at hf
        simp at hf
        have hp := firstIdx_prefix hr
        have hdd : (content.drop (s + 1)).drop r = content.drop (r + (s + 1)) := by
          rw [List.drop_drop, Nat.add_comm]
        rw [hdd] at hp
        rw [he, ← hf]
        exact hp
  have hdec := firstIdx_decomp hs
  have hstable0 : firstIdx msHeading
      (content.take s ++ msHeading ++ content.drop (s + msHeading.length)) =
      some (content.take s).length := by
    rw [← hdec.1, hdec.2]
    exact hs
  have hfi2 := firstIdx_stable hstable0
    (Y := '\n' :: (joinNl ((renderMilestone date branch title ::
      msLines content).take (c + 1)) ++ '\n' :: content.drop (sectionEndFrom content s)))
  rw [List.append_assoc] at hfi2
  have hbul := msBullets_shape (content.take s) (content.drop (sectionEndFrom content s))
      ((renderMilestone date branch title :: msLines content).take (c + 1))
      hupd_props hupd_ne hAs hfi2
  refine ⟨_, updateMainMilestones_spec date branch title (c + 1) hs, ?_, ?_, ?_, ?_⟩
  · exact hbul
  · rw [hbul]
    exact List.length_take_le _ _
  · rw [hbul, List.take_succ_cons]
    rfl
  · rw [hbul]
    intro hmem
    rcases List.mem_cons.1 (List.mem_of_mem_take hmem) with heq | hmem3
    · have hcol : ':' ∈ renderMilestone date branch title := by
        rw [renderMilestone]
        refine List.mem_append.2 (Or.inl ?_)
        refine List.mem_append.2 (Or.inl ?_)
        refine List.mem_append.2 (Or.inl ?_)
        refine List.mem_append.2 (Or.inl ?_)
        exact List.mem_append.2 (Or.inr (by decide))
      rw [← heq] at hcol
      exact absurd hcol (by decide)
    · have hmemL : str "- (none yet)" ∈ msLines content := hmem3
      rw [hML] at hmemL
      have h1 := List.of_mem_filter hmemL
      rw [msLineKeep, Bool.and_eq_true] at h1
      have h2 := h1.2
      rw [show containsSub (str "- (none yet)") (str "(none yet)") = true from by decide] at h2
      simp at h2

/-- Claim C7 witness: the fresh-project main.md template, a cap of 5 and
a newline-free entry. -/
theorem c7_milestones_capped_witness :
    (firstIdx msHeading mainMdTemplate = some 87 ∧ (1 : Nat) ≤ 5 ∧
      '\n' ∉ str "2026-01-02" ∧ '\n' ∉ str "main" ∧ '\n' ∉ str "t") ∧
    (∃ c2, updateMainMilestones (some mainMdTemplate) (str "2026-01-02") (str "main")
        (str "t") 5 = some c2 ∧
      msBullets c2 = (renderMilestone (str "2026-01-02") (str "main") (str "t") ::
        msLines mainMdTemplate).take 5 ∧
      (msBullets c2).length ≤ 5 ∧
      (msBullets c2).head? =
        some (renderMilestone (str "2026-01-02") (str "main") (str "t")) ∧
      str "- (none yet)" ∉ msBullets c2) :=
  ⟨⟨by decide, by decide, by decide, by decide, by decide⟩,
   @c7_milestones_capped mainMdTemplate (str "2026-01-02") (str "main") (str "t") 87 5
     (by decide) (by decide) (by decide) (by decide) (by decide)⟩

/-- Claim C9 witness: the two-branch scenario on a fresh project whose
registry file is missing. -/
theorem c9_branch_without_registry_witness :
    (handleBranch { freshSt with registry := none } (str "explore-a") (str "p")
        (str "h") (str "2026-01-02")).2.registry = none
    ∧ (handleBranch
        (handleBranch { freshSt with registry := none } (str "explore-a") (str "p")
          (str "h") (str "2026-01-02")).2
        (str "explore-b") (str "p") (str "h") (str "2026-01-02")).2.dirs
        (str "explore-a") = true
    ∧ (handleBranch
        (handleBranch { freshSt with registry := none } (str "explore-a") (str "p")
          (str "h") (str "2026-01-02")).2
        (str "explore-b") (str "p") (str "h") (str "2026-01-02")).2.dirs
        (str "explore-b") = true := by
  have h := c9_branch_without_registry { freshSt with registry := none }
    (str "explore-a") (str "p") (str "h") (str "explore-b") (str "p") (str "h")
    (str "2026-01-02") rfl (by decide) (by decide) (by decide) (by decide)
    (by decide) (by decide) (by decide) (by decide) (by decide) (by decide)
  exact ⟨h.2.1, h.2.2.2.2.2.2.2.1, h.2.2.2.2.2.2.2.2⟩

end GCC
